import Mathlib

/-!
Verification of the git-vrc streaming YAML rewrite engine against its
natural-language specification.  The definitions below are shallow embeddings
of the Rust source files src/yaml.rs, src/clean/filter/context.rs,
src/clean/filter/main.rs and src/clean/filter/remove_components.rs.
Strings of the original document are modelled as lists of characters and byte
offsets as character indices (all concrete inputs are ASCII, where the two
coincide).  The external YAML tokenizer is modelled by its output: a list of
typed tokens with span markers, exactly the contract the engine consumes.
-/

namespace GitVrc

/-- Whitespace test used by the Rust trim functions, restricted to the
whitespace characters that can occur in YAML text (space, tab, line feed,
carriage return, vertical tab, form feed). -/
def isWs (c : Char) : Bool :=
  c = ' ' || c = '\t' || c = '\n' || c = '\r' || c = Char.ofNat 11 || c = Char.ofNat 12

/-- Rust str::trim_start over a character list. -/
def trimStartL (s : List Char) : List Char := s.dropWhile (fun c => isWs c)

/-- Rust str::trim_end over a character list. -/
def trimEndL (s : List Char) : List Char := (s.reverse.dropWhile (fun c => isWs c)).reverse

/-- Rust str::find of a pattern substring: index of the first occurrence. -/
def findSub (pat : List Char) : List Char → Option Nat
  | [] => if pat.isPrefixOf ([] : List Char) then some 0 else none
  | c :: rest =>
    if pat.isPrefixOf (c :: rest) then some 0
    else (findSub pat rest).map (· + 1)

/-- Value of a list of decimal digit characters. -/
def digitsToNat (ds : List Char) : Nat :=
  ds.foldl (fun acc c => acc * 10 + (c.toNat - 48)) 0

/-- Rust i64::from_str: optional sign, one or more ascii digits, result in
the signed 64-bit range; anything else is a parse error (none). -/
def parseI64 (s : List Char) : Option Int :=
  let p : Int × List Char :=
    match s with
    | '+' :: t => (1, t)
    | '-' :: t => (-1, t)
    | t => (1, t)
  if p.2 = [] then none
  else if !p.2.all Char.isDigit then none
  else
    let v : Int := p.1 * (digitsToNat p.2 : Int)
    if -(2 ^ 63) ≤ v ∧ v < 2 ^ 63 then some v else none

/-- Rust u32::from_str: optional plus sign, one or more ascii digits, result
below 2^32. -/
def parseU32 (s : List Char) : Option Nat :=
  let t : List Char := match s with | '+' :: t => t | t => t
  if t = [] then none
  else if !t.all Char.isDigit then none
  else if digitsToNat t < 2 ^ 32 then some (digitsToNat t) else none

/-! ## Document splitter (yaml.rs, YamlSeparated) -/

/-- One step of the YamlSeparated iterator (yaml.rs), for a nonempty input:
returns the (heading line, body) pair and the remaining input.  A heading
line is present only when the input starts with the literal triple hyphen;
the body extends to the next newline-prefixed triple hyphen. -/
def yamlSeparatedNext (s : List Char) : (List Char × List Char) × List Char :=
  let hs : List Char × List Char :=
    if ('-' :: '-' :: '-' :: []).isPrefixOf s then
      match findSub ['\n'] s with
      | some lf => (s.take (lf + 1), s.drop (lf + 1))
      | none => (s, [])
    else ([], s)
  let i : Nat :=
    match findSub ('\n' :: '-' :: '-' :: '-' :: []) hs.2 with
    | some p => p + 1
    | none => hs.2.length
  ((hs.1, hs.2.take i), hs.2.drop i)

theorem yamlSeparatedNext_append (s : List Char) :
    (yamlSeparatedNext s).1.1 ++ ((yamlSeparatedNext s).1.2 ++ (yamlSeparatedNext s).2) = s := by
  unfold yamlSeparatedNext
  cases hp : ('-' :: '-' :: '-' :: []).isPrefixOf s with
  | false =>
    cases hf : findSub ('\n' :: '-' :: '-' :: '-' :: []) s with
    | none => simp
    | some p => simp [List.take_append_drop]
  | true =>
    cases hf : findSub ['\n'] s with
    | none =>
      cases hg : findSub ('\n' :: '-' :: '-' :: '-' :: []) ([] : List Char) with
      | none => simp [hg]
      | some p => simp [findSub] at hg
    | some lf =>
      cases hg : findSub ('\n' :: '-' :: '-' :: '-' :: []) (s.drop (lf + 1)) with
      | none => simp [hg, List.take_append_drop]
      | some p => simp [hg, List.take_append_drop]

theorem yamlSeparatedNext_rest_lt (s : List Char) (h : s ≠ []) :
    (yamlSeparatedNext s).2.length < s.length := by
  have hlen : 0 < s.length := List.length_pos.mpr h
  unfold yamlSeparatedNext
  cases hp : ('-' :: '-' :: '-' :: []).isPrefixOf s with
  | false =>
    cases hg : findSub ('\n' :: '-' :: '-' :: '-' :: []) s with
    | none => simp [hg]; omega
    | some p => simp [hg, List.length_drop]; omega
  | true =>
    cases hf : findSub ['\n'] s with
    | none =>
      cases hg : findSub ('\n' :: '-' :: '-' :: '-' :: []) ([] : List Char) with
      | none => simp [hg]; omega
      | some p => simp [findSub] at hg
    | some lf =>
      cases hg : findSub ('\n' :: '-' :: '-' :: '-' :: []) (s.drop (lf + 1)) with
      | none => simp [hg, List.length_drop]; omega
      | some p => simp [hg, List.length_drop]; omega

/-- The full YamlSeparated iteration: the list of (heading, body) pairs. -/
def yamlSeparatedList (s : List Char) : List (List Char × List Char) :=
  if h : s = [] then []
  else
    have := yamlSeparatedNext_rest_lt s h
    (yamlSeparatedNext s).1 :: yamlSeparatedList (yamlSeparatedNext s).2
termination_by s.length

/-! ## Heading line parser (yaml.rs, ParsedHeadingLine) -/

/-- Error cases of heading line parsing (yaml.rs, HeadingLineParsingErrInner). -/
inductive HeadingLineParsingErr
  | noSeparator
  | noFileId
  | unknownFlags (flg : List Char)
deriving DecidableEq, Repr

/-- Parsed identity metadata of one document (yaml.rs, ParsedHeadingLine). -/
structure ParsedHeadingLine where
  fileId : Int
  isStripped : Bool
deriving DecidableEq, Repr

/-- Character list of the word stripped. -/
def strippedChars : List Char := ['s', 't', 'r', 'i', 'p', 'p', 'e', 'd']

/-- Character test for the end of the file id run in the heading parser:
not an ascii digit and not a hyphen (yaml.rs line 149). -/
def notIdChar (c : Char) : Bool := !c.isDigit && !(c = '-')

/-- Rust str::find with a character predicate: index of the first character
satisfying it. -/
def findIdxO (p : Char → Bool) : List Char → Option Nat
  | [] => none
  | c :: rest => if p c then some 0 else (findIdxO p rest).map (· + 1)

/-- The heading line parser (yaml.rs, ParsedHeadingLine::from_str). -/
def parsedHeadingLineFromStr (s : List Char) :
    Except HeadingLineParsingErr ParsedHeadingLine :=
  if !(('-' :: '-' :: '-' :: ' ' :: []).isPrefixOf s) then .error .noSeparator
  else
    let s1 := trimStartL (s.drop 4)
    match findSub ['&'] s1 with
    | none => .error .noFileId
    | some amp =>
      let s2 := s1.drop (amp + 1)
      let nonDigit := (findIdxO notIdChar s2).getD s2.length
      match parseI64 (s2.take nonDigit) with
      | none => .error .noFileId
      | some fileId =>
        let s3 := trimStartL (s2.drop nonDigit)
        let st : Bool × List Char :=
          if strippedChars.isPrefixOf s3 then (true, trimStartL (s3.drop 8))
          else (false, s3)
        if st.2 ≠ [] then .error (.unknownFlags st.2)
        else .ok ⟨fileId, st.1⟩

/-! ## Token vocabulary (the external tokenizer contract) -/

/-- Scalar quoting styles of the tokenizer. -/
inductive TScalarStyle
  | plain
  | singleQuoted
  | doubleQuoted
  | literal
  | folded
deriving DecidableEq, Repr

/-- Token kinds produced by the external YAML tokenizer, as consumed by the
engine (yaml_rust TokenType, restricted to the kinds the engine matches). -/
inductive TokenType
  | streamStart
  | streamEnd
  | blockMappingStart
  | blockEnd
  | blockEntry
  | flowMappingStart
  | flowMappingEnd
  | flowSequenceStart
  | flowSequenceEnd
  | flowEntry
  | key
  | value
  | scalar (style : TScalarStyle) (text : String)
deriving DecidableEq, Repr

/-- Byte span of a token in the original text, character indexed. -/
structure Marker where
  beginIdx : Nat
  endIdx : Nat
deriving DecidableEq, Repr

/-- One token with its span marker. -/
structure Token where
  mrk : Marker
  tok : TokenType
deriving DecidableEq, Repr

/-- One output fragment: either a borrowed span of the original text or a
literal string injected by append_str. -/
inductive Frag
  | slice (first last : Nat)
  | lit (s : String)
deriving DecidableEq, Repr

/-- The value returned by finish: either a single borrowed fragment or an
owned concatenation of fragments (std::borrow::Cow). -/
inductive Cow
  | borrowed (f : Frag)
  | owned (fs : List Frag)
deriving DecidableEq, Repr

/-- Rendering a fragment against the original document text. -/
def Frag.render (yaml : List Char) : Frag → List Char
  | .slice first last => (yaml.take last).drop first
  | .lit s => s.toList

/-- Rendering the finished value against the original document text. -/
def Cow.render (yaml : List Char) : Cow → List Char
  | .borrowed f => f.render yaml
  | .owned fs => (fs.map (Frag.render yaml)).flatten

/-- Errors of the parser (filter/context.rs ParserErr, with panics from
assert, expect_token, unexpected_token and unwrap modelled as panicked; the
fuelOut case marks exhaustion of the recursion fuel of the embedding and
never occurs when enough fuel is supplied). -/
inductive ParserErr
  | eof
  | panicked
  | fuelOut
deriving DecidableEq, Repr

/-- Early exit signal of mapping and sequence visitors
(std::ops::ControlFlow). -/
inductive Flow (R : Type)
  | brk (r : R)
  | cont
deriving DecidableEq, Repr

/-! ## Token cursor and output builder (filter/context.rs, Context) -/

/-- The per document engine state: committed output offset, original text,
remaining tokenizer output (the lookahead slot of the source is
observationally the head of this list), markers of the current and previous
tokens, the pending mergeable span and the emitted fragments. -/
structure Context where
  printed : Nat
  yaml : List Char
  tokens : List Token
  lastMark : Option Marker
  mrk : Option Marker
  willWrite : Option (Nat × Nat)
  result : List Frag
deriving DecidableEq, Repr

/-- Context::new. -/
def Context.new (yaml : List Char) (tokens : List Token) : Context :=
  ⟨0, yaml, tokens, none, none, none, []⟩

/-- Context::peek: the lookahead token kind, without consuming. -/
def peekT (ctx : Context) : Except ParserErr TokenType :=
  match ctx.tokens with
  | [] => .error .eof
  | t :: _ => .ok t.tok

/-- Context::next: consume the next token, recording current and previous
token markers. -/
def nextT (ctx : Context) : Except ParserErr (TokenType × Context) :=
  match ctx.tokens with
  | [] => .error .eof
  | t :: rest =>
    .ok (t.tok, { ctx with tokens := rest, lastMark := ctx.mrk, mrk := some t.mrk })

/-- Context::mark_pos: the length of the text up to the token end, with
trailing whitespace trimmed (filter/context.rs lines 271 to 273). -/
def Context.markPos (ctx : Context) (m : Marker) : Nat :=
  (trimEndL (ctx.yaml.take m.endIdx)).length

/-- The private Context::append: merge the range from printed to index into
the pending span, flushing the pending span when not contiguous.  The source
asserts printed < index (panic on violation). -/
def Context.bAppend (ctx : Context) (index : Nat) : Except ParserErr Context :=
  if index = ctx.printed then .ok ctx
  else if ctx.printed < index then
    match ctx.willWrite with
    | some fe =>
      if fe.2 = ctx.printed then
        .ok { ctx with willWrite := some (fe.1, fe.2 + (index - ctx.printed)),
                       printed := index }
      else
        .ok { ctx with result := ctx.result ++ [.slice fe.1 fe.2],
                       willWrite := some (ctx.printed, index), printed := index }
    | none => .ok { ctx with willWrite := some (ctx.printed, index), printed := index }
  else .error .panicked

/-- Context::clear_will_write. -/
def Context.clearWillWrite (ctx : Context) : Context :=
  match ctx.willWrite with
  | some fe => { ctx with willWrite := none, result := ctx.result ++ [.slice fe.1 fe.2] }
  | none => ctx

/-- Context::append_str: flush the pending span and push a literal fragment
(empty strings are dropped). -/
def Context.appendStr (ctx : Context) (s : String) : Context :=
  if s = "" then ctx
  else
    let c := ctx.clearWillWrite
    { c with result := c.result ++ [.lit s] }

/-- Context::write_until_current_token. -/
def writeUntilCurrentToken (ctx : Context) : Except ParserErr Context :=
  match ctx.mrk with
  | none => .error .panicked
  | some m => ctx.bAppend (ctx.markPos m)

/-- Context::write_until_last_token. -/
def writeUntilLastToken (ctx : Context) : Except ParserErr Context :=
  match ctx.lastMark with
  | none => .error .panicked
  | some m => ctx.bAppend (ctx.markPos m)

/-- Context::skip_until_last_token. -/
def skipUntilLastToken (ctx : Context) : Except ParserErr Context :=
  match ctx.lastMark with
  | none => .error .panicked
  | some m => .ok { ctx with printed := ctx.markPos m }

/-- Context::skip_until_current_token. -/
def skipUntilCurrentToken (ctx : Context) : Except ParserErr Context :=
  match ctx.mrk with
  | none => .error .panicked
  | some m => .ok { ctx with printed := ctx.markPos m }

/-- Context::finish: flush the pending span plus the document tail and return
a single borrowed fragment or the owned concatenation. -/
def Context.finish (ctx : Context) : Except ParserErr Cow := do
  let c ← ctx.bAppend ctx.yaml.length
  let c := c.clearWillWrite
  match c.result with
  | [f] => .ok (.borrowed f)
  | _ => .ok (.owned (c.result ++ [.slice c.printed c.yaml.length]))

/-- Context::next_scalar (filter/context.rs lines 124 to 138): when the
lookahead is a structural token meaning the value is elided, return the
sentinel pair without consuming; otherwise require a scalar token. -/
def nextScalar (ctx : Context) : Except ParserErr ((String × TScalarStyle) × Context) :=
  match peekT ctx with
  | .error e => .error e
  | .ok t =>
    match t with
    | .blockEnd | .flowMappingEnd | .key | .value => .ok (("", .plain), ctx)
    | .scalar _ _ =>
      match nextT ctx with
      | .error e => .error e
      | .ok (.scalar style v, c) => .ok ((v, style), c)
      | .ok _ => .error .panicked
    | _ => .error .panicked

/-! ## Generic mapping and sequence combinators (filter/context.rs)

The Rust combinators take closures that may mutate captured locals; the
embedding threads that captured state explicitly as a value of type sigma.
The fuel argument bounds loop iterations and never runs out on well formed
inputs when at least one more than the token count is supplied. -/

/-- Loop of Context::mapping over a block style mapping. -/
def mappingLoopBlockSt {σ R : Type} (dflt : R)
    (block : σ → Context → Except ParserErr (Flow R × σ × Context)) :
    Nat → σ → Context → Except ParserErr (R × σ × Context)
  | 0, _, _ => .error .fuelOut
  | fuel + 1, st, ctx =>
    match nextT ctx with
    | .error e => .error e
    | .ok (t, ctx) =>
      match t with
      | .key =>
        match block st ctx with
        | .error e => .error e
        | .ok (.brk r, st, ctx) => .ok (r, st, ctx)
        | .ok (.cont, st, ctx) => mappingLoopBlockSt dflt block fuel st ctx
      | .blockEnd => .ok (dflt, st, ctx)
      | _ => .error .panicked

/-- Loop of Context::mapping over a flow style mapping. -/
def mappingLoopFlowSt {σ R : Type} (dflt : R)
    (block : σ → Context → Except ParserErr (Flow R × σ × Context)) :
    Nat → σ → Context → Except ParserErr (R × σ × Context)
  | 0, _, _ => .error .fuelOut
  | fuel + 1, st, ctx =>
    match nextT ctx with
    | .error e => .error e
    | .ok (t, ctx) =>
      match t with
      | .key =>
        match block st ctx with
        | .error e => .error e
        | .ok (.brk r, st, ctx) => .ok (r, st, ctx)
        | .ok (.cont, st, ctx) =>
          match nextT ctx with
          | .error e => .error e
          | .ok (.flowEntry, ctx) => mappingLoopFlowSt dflt block fuel st ctx
          | .ok (.flowMappingEnd, ctx) => .ok (dflt, st, ctx)
          | .ok _ => .error .panicked
      | .flowMappingEnd => .ok (dflt, st, ctx)
      | _ => .error .panicked

/-- Context::mapping: consume a block or flow mapping start, then repeatedly
a key token and the visitor, until the matching end token. -/
def mappingSt {σ R : Type} (dflt : R) (fuel : Nat)
    (block : σ → Context → Except ParserErr (Flow R × σ × Context))
    (st : σ) (ctx : Context) : Except ParserErr (R × σ × Context) :=
  match nextT ctx with
  | .error e => .error e
  | .ok (t, ctx) =>
    match t with
    | .blockMappingStart => mappingLoopBlockSt dflt block fuel st ctx
    | .flowMappingStart => mappingLoopFlowSt dflt block fuel st ctx
    | _ => .error .panicked

/-- While loop of Context::sequence over block entries. -/
def sequenceLoopBlockSt {σ R : Type} (dflt : R)
    (block : σ → Context → Except ParserErr (Flow R × σ × Context)) :
    Nat → σ → Context → Except ParserErr (R × σ × Context)
  | 0, _, _ => .error .fuelOut
  | fuel + 1, st, ctx =>
    match peekT ctx with
    | .error e => .error e
    | .ok .blockEntry =>
      match nextT ctx with
      | .error e => .error e
      | .ok (_, ctx) =>
        match block st ctx with
        | .error e => .error e
        | .ok (.brk r, st, ctx) => .ok (r, st, ctx)
        | .ok (.cont, st, ctx) => sequenceLoopBlockSt dflt block fuel st ctx
    | .ok _ => .ok (dflt, st, ctx)

/-- Loop of Context::sequence over a flow style sequence. -/
def sequenceLoopFlowSt {σ R : Type} (dflt : R)
    (block : σ → Context → Except ParserErr (Flow R × σ × Context)) :
    Nat → σ → Context → Except ParserErr (R × σ × Context)
  | 0, _, _ => .error .fuelOut
  | fuel + 1, st, ctx =>
    match peekT ctx with
    | .error e => .error e
    | .ok .flowSequenceEnd =>
      match nextT ctx with
      | .error e => .error e
      | .ok (_, ctx) => .ok (dflt, st, ctx)
    | .ok _ =>
      match block st ctx with
      | .error e => .error e
      | .ok (.brk r, st, ctx) => .ok (r, st, ctx)
      | .ok (.cont, st, ctx) =>
        match nextT ctx with
        | .error e => .error e
        | .ok (.flowEntry, ctx) => sequenceLoopFlowSt dflt block fuel st ctx
        | .ok (.flowSequenceEnd, ctx) => .ok (dflt, st, ctx)
        | .ok _ => .error .panicked

/-- Context::sequence: analogous over block entry prefixed items or flow
sequence brackets. -/
def sequenceSt {σ R : Type} (dflt : R) (fuel : Nat)
    (block : σ → Context → Except ParserErr (Flow R × σ × Context))
    (st : σ) (ctx : Context) : Except ParserErr (R × σ × Context) :=
  match nextT ctx with
  | .error e => .error e
  | .ok (t, ctx) =>
    match t with
    | .blockEntry =>
      match block st ctx with
      | .error e => .error e
      | .ok (.brk r, st, ctx) => .ok (r, st, ctx)
      | .ok (.cont, st, ctx) => sequenceLoopBlockSt dflt block fuel st ctx
    | .flowSequenceStart => sequenceLoopFlowSt dflt block fuel st ctx
    | _ => .error .panicked

/-- While loop of the BlockEntry branch of Context::skip_next_value: while
the lookahead is a block entry, consume it and skip one value. -/
def skipEntries (skipv : Context → Except ParserErr Context) :
    Nat → Context → Except ParserErr Context
  | 0, _ => .error .fuelOut
  | fuel + 1, ctx =>
    match peekT ctx with
    | .error e => .error e
    | .ok .blockEntry =>
      match nextT ctx with
      | .error e => .error e
      | .ok (_, ctx) =>
        match skipv ctx with
        | .error e => .error e
        | .ok ctx => skipEntries skipv fuel ctx
    | .ok _ => .ok ctx

/-- The visitor used by the mapping branch of skip_next_value: skip the key,
require the value indicator, then (unless the lookahead is a flow entry,
meaning the value is elided inside a flow mapping) skip the value
(filter/context.rs lines 144 to 151). -/
def skipMapBlock (skipv : Context → Except ParserErr Context) (_ : Unit)
    (c : Context) : Except ParserErr (Flow Unit × Unit × Context) :=
  match skipv c with
  | .error e => .error e
  | .ok c =>
    match nextT c with
    | .error e => .error e
    | .ok (.value, c) =>
      match peekT c with
      | .ok .flowEntry => .ok (Flow.cont, (), c)
      | _ =>
        match skipv c with
        | .error e => .error e
        | .ok c => .ok (Flow.cont, (), c)
    | .ok _ => .error .panicked

/-- Context::skip_next_value (filter/context.rs lines 140 to 172):
generically discard the value at the cursor.  Note that the flow sequence
branch of the source consumes the opening bracket and then requires the
closing bracket immediately. -/
def skipNextValue : Nat → Context → Except ParserErr Context
  | 0, _ => .error .fuelOut
  | fuel + 1, ctx =>
    match peekT ctx with
    | .error e => .error e
    | .ok t =>
      match t with
      | .blockEnd | .flowMappingEnd | .key | .value => .ok ctx
      | .blockMappingStart | .flowMappingStart =>
        match mappingSt () fuel (skipMapBlock (skipNextValue fuel)) () ctx with
        | .error e => .error e
        | .ok (_, _, ctx) => .ok ctx
      | .blockEntry => skipEntries (skipNextValue fuel) (fuel + 1) ctx
      | .flowSequenceStart =>
        match nextT ctx with
        | .error e => .error e
        | .ok (_, ctx) =>
          match nextT ctx with
          | .error e => .error e
          | .ok (.flowSequenceEnd, ctx) => .ok ctx
          | .ok _ => .error .panicked
      | .scalar _ _ =>
        match nextT ctx with
        | .error e => .error e
        | .ok (_, ctx) => .ok ctx
      | _ => .error .panicked

/-! ## Object references (clean module, ObjectReference) -/

/-- A reference to another Unity object (clean module root, the i64 file id
variant used by the filter engine). -/
structure ObjectReference where
  fileId : Int
  guid : Option String
  objType : Nat
deriving DecidableEq, Repr

/-- ObjectReference::new. -/
def ObjectReference.new (fileId : Int) (guid : String) (objType : Nat) :
    ObjectReference := ⟨fileId, some guid, objType⟩

/-- ObjectReference::null: file id zero, no guid, type zero. -/
def ObjectReference.null : ObjectReference := ⟨0, none, 0⟩

/-- ObjectReference::is_null: the file id is zero. -/
def ObjectReference.isNull (r : ObjectReference) : Bool := r.fileId = 0

/-- Modelled from the spec: the one argument local constructor called by
parse_object_reference in filter/context.rs.  The clean module root that
defines it is not under src; per the data model a local reference has no
guid, and no rule in src observes the object type of a local reference, so
it is zero here. -/
def ObjectReference.local (fileId : Int) : ObjectReference := ⟨fileId, none, 0⟩

/-- Modelled from the spec: ObjectReference::is_local, called by
remove_components.rs; the data model states that an absent guid means a
local reference. -/
def ObjectReference.isLocal (r : ObjectReference) : Bool := r.guid.isNone

/-- The visitor of parse_object_reference over the fixed keys fileID, guid
and type (filter/context.rs lines 179 to 188); unknown keys and unparsable
numbers panic. -/
def orBlock (st : Option Int × Option String × Option Nat) (c : Context) :
    Except ParserErr (Flow Unit × (Option Int × Option String × Option Nat) × Context) :=
  match nextScalar c with
  | .error e => .error e
  | .ok ((name, _), c) =>
    match nextT c with
    | .error e => .error e
    | .ok (.value, c) =>
      if name = "fileID" then
        match nextScalar c with
        | .error e => .error e
        | .ok ((v, _), c) =>
          match parseI64 v.toList with
          | some n => .ok (Flow.cont, (some n, st.2.1, st.2.2), c)
          | none => .error .panicked
      else if name = "guid" then
        match nextScalar c with
        | .error e => .error e
        | .ok ((v, _), c) => .ok (Flow.cont, (st.1, some v, st.2.2), c)
      else if name = "type" then
        match nextScalar c with
        | .error e => .error e
        | .ok ((v, _), c) =>
          match parseU32 v.toList with
          | some n => .ok (Flow.cont, (st.1, st.2.1, some n), c)
          | none => .error .panicked
      else .error .panicked
    | .ok _ => .error .panicked

/-- Context::parse_object_reference (filter/context.rs lines 174 to 203): a
mapping visitor over the fixed keys fileID, guid and type; a zero file id
yields the null reference, an absent guid the local reference. -/
def parseObjectReference (fuel : Nat) (ctx : Context) :
    Except ParserErr (ObjectReference × Context) :=
  match mappingSt () fuel orBlock (none, none, none) ctx with
  | .error e => .error e
  | .ok (_, (fileIdOpt, guidOpt, typeOpt), ctx) =>
    match fileIdOpt with
    | none => .error .panicked
    | some fid =>
      if fid = 0 then .ok (ObjectReference.null, ctx)
      else
        match guidOpt with
        | some g =>
          match typeOpt with
          | some ty => .ok (ObjectReference.new fid g ty, ctx)
          | none => .error .panicked
        | none => .ok (ObjectReference.local fid, ctx)

/-! ## Schema rewrite rules (filter/main.rs) -/

/-- The fixed sentinel reference of the PipelineSaver script
(filter/main.rs, PIPELINE_SAVER_REFERENCE). -/
def pipelineSaverReference : ObjectReference :=
  ObjectReference.new 229740497 "4ecd63eff847044b68db9453ce219299" 3

/-- Rust str::starts_with over strings, computed on the character lists. -/
def strStartsWith (s pat : String) : Bool := pat.toList.isPrefixOf s.toList

/-- Rust str::ends_with over strings, computed on the character lists. -/
def strEndsWith (s pat : String) : Bool :=
  pat.toList.reverse.isPrefixOf s.toList.reverse

/-- should_omit (filter/main.rs lines 284 to 317): the per modification
record deletion predicate. -/
def shouldOmit (propertyPath value : String) (objectReference : ObjectReference) :
    Bool :=
  if propertyPath = "serializedProgramAsset" && value = "~" then true
  else if propertyPath = "fallbackStatus" && objectReference.isNull then true
  else if propertyPath = "layerCollisionArr" && objectReference.isNull then true
  else if propertyPath = "completedSDKPipeline" && objectReference.isNull then true
  else if strStartsWith propertyPath "DynamicMaterials.Array"
       || strStartsWith propertyPath "DynamicPrefabs.Array"
       || strStartsWith propertyPath "animationHashSet.Array" then true
  else if strStartsWith propertyPath "baseAnimationLayers.Array.data["
       && strEndsWith propertyPath "].mask" then true
  else false

/-- The replacement for layerCollisionArr: a space followed by 32 times 64
zero digits (filter/main.rs lines 109 to 143). -/
def layerCollisionZeros : String :=
  " " ++ String.mk (List.replicate 2048 '0')

/-- Helper wrapping a context computation as a continuing visitor result. -/
def contOf {σ : Type} {R : Type} (st : σ) (mc : Except ParserErr Context) :
    Except ParserErr (Flow R × σ × Context) :=
  match mc with
  | .error e => .error e
  | .ok c => .ok (.cont, st, c)

/-- The replace with literal pattern of the MonoBehaviour branches: write up
to the value start, skip the old value, append the literal, skip residual
original text (filter/main.rs, e.g. lines 83 to 87). -/
def replaceValueWith (fuel : Nat) (lit : String) (ctx : Context) :
    Except ParserErr Context :=
  match writeUntilCurrentToken ctx with
  | .error e => .error e
  | .ok ctx =>
    match skipNextValue fuel ctx with
    | .error e => .error e
    | .ok ctx =>
      let ctx := ctx.appendStr lit
      skipUntilCurrentToken ctx

/-- Visitor of the inner mapping of baseAnimationLayers elements
(filter/main.rs, mono_behaviour_base_animation_layers). -/
def mbBalBlock (fuel : Nat) (st : Unit) (c : Context) :
    Except ParserErr (Flow Unit × Unit × Context) :=
  match nextScalar c with
  | .error e => .error e
  | .ok ((keyName, _), c) =>
    match nextT c with
    | .error e => .error e
    | .ok (.value, c) =>
      if keyName = "mask" then contOf st (replaceValueWith fuel " \x7bfileID: 0\x7d" c)
      else contOf st (skipNextValue fuel c)
    | .ok _ => .error .panicked

/-- mono_behaviour_base_animation_layers (filter/main.rs lines 172 to 197). -/
def mbBaseAnimationLayers (fuel : Nat) (ctx : Context) : Except ParserErr Context :=
  match writeUntilCurrentToken ctx with
  | .error e => .error e
  | .ok ctx =>
    match sequenceSt () fuel
        (fun (_ : Unit) c =>
          match mappingSt () fuel (mbBalBlock fuel) () c with
          | .error e => .error e
          | .ok (_, _, c) => .ok (Flow.cont, (), c)) () ctx with
    | .error e => .error e
    | .ok (_, _, ctx) => .ok ctx

/-- The MonoBehaviour mapping visitor (filter/main.rs, mono_behaviour,
lines 64 to 169). -/
def mbBlock (fuel : Nat) (st : Unit) (ctx : Context) :
    Except ParserErr (Flow Bool × Unit × Context) :=
  match nextScalar ctx with
  | .error e => .error e
  | .ok ((name, _), ctx) =>
    match nextT ctx with
    | .error e => .error e
    | .ok (.value, ctx) =>
      if name = "serializedVersion" then
        contOf st
          (match nextScalar ctx with
           | .error e => .error e
           | .ok ((v, _), ctx) => if v = "2" then .ok ctx else .error .panicked)
      else if name = "m_Script" then
        match parseObjectReference fuel ctx with
        | .error e => .error e
        | .ok (objectReference, ctx) =>
          if objectReference = pipelineSaverReference then .ok (.brk true, st, ctx)
          else .ok (.cont, st, ctx)
      else if name = "serializedUdonProgramAsset" || name = "serializedProgramAsset" then
        contOf st (replaceValueWith fuel " \x7bfileID: 0\x7d" ctx)
      else if name = "fallbackStatus" then
        contOf st (replaceValueWith fuel " 0" ctx)
      else if name = "animationHashSet" then
        contOf st (replaceValueWith fuel " []" ctx)
      else if name = "layerCollisionArr" then
        contOf st (replaceValueWith fuel layerCollisionZeros ctx)
      else if name = "completedSDKPipeline" then
        contOf st (replaceValueWith fuel " 0" ctx)
      else if name = "baseAnimationLayers" then
        contOf st (mbBaseAnimationLayers fuel ctx)
      else if name = "DynamicMaterials" || name = "DynamicPrefabs" then
        contOf st
          (match writeUntilCurrentToken ctx with
           | .error e => .error e
           | .ok ctx =>
             let ctx := ctx.appendStr " []"
             match skipNextValue fuel ctx with
             | .error e => .error e
             | .ok ctx => skipUntilCurrentToken ctx)
      else contOf st (skipNextValue fuel ctx)
    | .ok _ => .error .panicked

/-- mono_behaviour (filter/main.rs lines 63 to 170). -/
def monoBehaviour (fuel : Nat) (ctx : Context) : Except ParserErr (Bool × Context) :=
  match mappingSt false fuel (mbBlock fuel) () ctx with
  | .error e => .error e
  | .ok (b, _, ctx) => .ok (b, ctx)

/-- State collected for one modification record: the target, propertyPath,
value and objectReference fields (filter/main.rs lines 233 to 236). -/
def ModState : Type :=
  Option ObjectReference × Option String × Option String × Option ObjectReference

/-- Visitor of one modification record mapping (filter/main.rs lines 238
to 251): collect the four fields, panic on an unknown key. -/
def piModBlock (fuel : Nat) (st : ModState) (c : Context) :
    Except ParserErr (Flow Unit × ModState × Context) :=
  match nextScalar c with
  | .error e => .error e
  | .ok ((keyName, _), c) =>
    match nextT c with
    | .error e => .error e
    | .ok (.value, c) =>
      if keyName = "target" then
        match parseObjectReference fuel c with
        | .error e => .error e
        | .ok (r, c) => .ok (Flow.cont, (some r, st.2.1, st.2.2.1, st.2.2.2), c)
      else if keyName = "propertyPath" then
        match nextScalar c with
        | .error e => .error e
        | .ok ((v, _), c) => .ok (Flow.cont, (st.1, some v, st.2.2.1, st.2.2.2), c)
      else if keyName = "value" then
        match nextScalar c with
        | .error e => .error e
        | .ok ((v, _), c) => .ok (Flow.cont, (st.1, st.2.1, some v, st.2.2.2), c)
      else if keyName = "objectReference" then
        match parseObjectReference fuel c with
        | .error e => .error e
        | .ok (r, c) => .ok (Flow.cont, (st.1, st.2.1, st.2.2.1, some r), c)
      else .error .panicked
    | .ok _ => .error .panicked

/-- Visitor of one element of the m_Modifications sequence (filter/main.rs
lines 232 to 272): parse the record, then keep or delete its bytes according
to should_omit; the boolean state is the captured some_written flag. -/
def piModsElem (fuel : Nat) (someWritten : Bool) (c : Context) :
    Except ParserErr (Flow Unit × Bool × Context) :=
  match mappingSt () fuel (piModBlock fuel) (none, none, none, none) c with
  | .error e => .error e
  | .ok (_, (tgtOpt, ppOpt, vOpt, orOpt), c) =>
    match tgtOpt, vOpt, ppOpt, orOpt with
    | some _, some v, some pp, some orf =>
      if shouldOmit pp v orf then
        match skipUntilLastToken c with
        | .error e => .error e
        | .ok c => .ok (Flow.cont, someWritten, c)
      else
        match writeUntilLastToken c with
        | .error e => .error e
        | .ok c => .ok (Flow.cont, true, c)
    | _, _, _, _ => .error .panicked

/-- prefab_instance_modifications_sequence (filter/main.rs lines 227
to 281). -/
def prefabInstanceModificationsSequence (fuel : Nat) (ctx : Context) :
    Except ParserErr Context :=
  match writeUntilCurrentToken ctx with
  | .error e => .error e
  | .ok ctx =>
    match sequenceSt () fuel (piModsElem fuel) false ctx with
    | .error e => .error e
    | .ok (_, someWritten, ctx) =>
      if someWritten then .ok ctx
      else
        match skipUntilCurrentToken ctx with
        | .error e => .error e
        | .ok ctx => .ok (ctx.appendStr " []")

/-- prefab_instance_modification (filter/main.rs lines 215 to 225). -/
def prefabInstanceModification (fuel : Nat) (ctx : Context) :
    Except ParserErr Context :=
  match mappingSt () fuel
      (fun (st : Unit) c =>
        match nextScalar c with
        | .error e => .error e
        | .ok ((keyName, _), c) =>
          match nextT c with
          | .error e => .error e
          | .ok (.value, c) =>
            if keyName = "m_Modifications" then
              contOf st (prefabInstanceModificationsSequence fuel c)
            else contOf st (skipNextValue fuel c)
          | .ok _ => .error .panicked) () ctx with
  | .error e => .error e
  | .ok (_, _, ctx) => .ok ctx

/-- The PrefabInstance mapping visitor (filter/main.rs lines 201 to 212). -/
def piBlock (fuel : Nat) (st : Unit) (ctx : Context) :
    Except ParserErr (Flow Bool × Unit × Context) :=
  match nextScalar ctx with
  | .error e => .error e
  | .ok ((keyName, _), ctx) =>
    match nextT ctx with
    | .error e => .error e
    | .ok (.value, ctx) =>
      if keyName = "serializedVersion" then
        contOf st
          (match nextScalar ctx with
           | .error e => .error e
           | .ok ((v, _), ctx) => if v = "2" then .ok ctx else .error .panicked)
      else if keyName = "m_Modification" then
        contOf st (prefabInstanceModification fuel ctx)
      else contOf st (skipNextValue fuel ctx)
    | .ok _ => .error .panicked

/-- prefab_instance (filter/main.rs lines 200 to 213). -/
def prefabInstance (fuel : Nat) (ctx : Context) : Except ParserErr (Bool × Context) :=
  match mappingSt false fuel (piBlock fuel) () ctx with
  | .error e => .error e
  | .ok (b, _, ctx) => .ok (b, ctx)

/-- The RenderSettings mapping visitor (filter/main.rs lines 321 to 335). -/
def rsBlock (fuel : Nat) (st : Unit) (ctx : Context) :
    Except ParserErr (Flow Bool × Unit × Context) :=
  match nextScalar ctx with
  | .error e => .error e
  | .ok ((name, _), ctx) =>
    match nextT ctx with
    | .error e => .error e
    | .ok (.value, ctx) =>
      if name = "m_IndirectSpecularColor" then
        contOf st (replaceValueWith fuel " \x7br: 0, g: 0, b: 0, a: 1\x7d" ctx)
      else contOf st (skipNextValue fuel ctx)
    | .ok _ => .error .panicked

/-- render_settings (filter/main.rs lines 320 to 336). -/
def renderSettings (fuel : Nat) (ctx : Context) : Except ParserErr (Bool × Context) :=
  match mappingSt false fuel (rsBlock fuel) () ctx with
  | .error e => .error e
  | .ok (b, _, ctx) => .ok (b, ctx)

/-- The value of Cow for a document removed entirely: the empty static
string, Cow::Borrowed of an empty literal. -/
def emptyCow : Cow := .borrowed (.lit "")

/-- The closing sequence of filter_yaml after the driver returned false:
assert a BlockEnd, assert a StreamEnd, then finish (filter/main.rs lines 51
to 54). -/
def closingsAndFinish (ctx : Context) : Except ParserErr Cow :=
  match nextT ctx with
  | .error e => .error e
  | .ok (.blockEnd, ctx) =>
    match nextT ctx with
    | .error e => .error e
    | .ok (.streamEnd, ctx) => ctx.finish
    | .ok _ => .error .panicked
  | .ok _ => .error .panicked

/-- filter_yaml of the schema rewrite pass (filter/main.rs lines 27 to 55):
dispatch on the first mapping key of the document; unrecognized types pass
the whole input through borrowed; a driver returning true empties the
document. -/
def filterYaml (fuel : Nat) (yaml : List Char) (tokens : List Token) :
    Except ParserErr Cow :=
  if yaml = [] then .error .panicked
  else
    match nextT (Context.new yaml tokens) with
    | .error e => .error e
    | .ok (.streamStart, ctx) =>
      match nextT ctx with
      | .error e => .error e
      | .ok (.blockMappingStart, ctx) =>
        match nextT ctx with
        | .error e => .error e
        | .ok (.key, ctx) =>
          match nextScalar ctx with
          | .error e => .error e
          | .ok ((objectType, _), ctx) =>
            match nextT ctx with
            | .error e => .error e
            | .ok (.value, ctx) =>
              if objectType = "MonoBehaviour" then
                match monoBehaviour fuel ctx with
                | .error e => .error e
                | .ok (omitDoc, ctx) =>
                  if omitDoc then .ok emptyCow else closingsAndFinish ctx
              else if objectType = "PrefabInstance" then
                match prefabInstance fuel ctx with
                | .error e => .error e
                | .ok (omitDoc, ctx) =>
                  if omitDoc then .ok emptyCow else closingsAndFinish ctx
              else if objectType = "RenderSettings" then
                match renderSettings fuel ctx with
                | .error e => .error e
                | .ok (omitDoc, ctx) =>
                  if omitDoc then .ok emptyCow else closingsAndFinish ctx
              else .ok (.borrowed (.slice 0 yaml.length))
            | .ok _ => .error .panicked
        | .ok _ => .error .panicked
      | .ok _ => .error .panicked
    | .ok _ => .error .panicked

/-! ## Component removal pass (filter/remove_components.rs) -/

/-- Visitor of one m_Component entry (remove_components.rs lines 77 to 90):
a one key block mapping with key component; keep or delete the entry bytes
according to locality and membership of the removed set. -/
def goComponentElem (fuel : Nat) (isRemoved : Int → Bool) (st : Unit) (c : Context) :
    Except ParserErr (Flow Unit × Unit × Context) :=
  match nextT c with
  | .error e => .error e
  | .ok (.blockMappingStart, c) =>
    match nextT c with
    | .error e => .error e
    | .ok (.key, c) =>
      match nextScalar c with
      | .error e => .error e
      | .ok ((s, _), c) =>
        if s = "component" then
          match nextT c with
          | .error e => .error e
          | .ok (.value, c) =>
            match parseObjectReference fuel c with
            | .error e => .error e
            | .ok (reference, c) =>
              match
                (if reference.isLocal && isRemoved reference.fileId then
                   skipUntilLastToken c
                 else writeUntilLastToken c) with
              | .error e => .error e
              | .ok c =>
                match nextT c with
                | .error e => .error e
                | .ok (.blockEnd, c) => .ok (Flow.cont, st, c)
                | .ok _ => .error .panicked
          | .ok _ => .error .panicked
        else .error .panicked
    | .ok _ => .error .panicked
  | .ok _ => .error .panicked

/-- The GameObject mapping visitor (remove_components.rs lines 66 to 95). -/
def goBlock (fuel : Nat) (isRemoved : Int → Bool) (st : Unit) (ctx : Context) :
    Except ParserErr (Flow Bool × Unit × Context) :=
  match nextScalar ctx with
  | .error e => .error e
  | .ok ((name, _), ctx) =>
    match nextT ctx with
    | .error e => .error e
    | .ok (.value, ctx) =>
      if name = "serializedVersion" then
        contOf st
          (match nextScalar ctx with
           | .error e => .error e
           | .ok ((v, _), ctx) =>
             if v = "5" || v = "6" then .ok ctx else .error .panicked)
      else if name = "m_Component" then
        contOf st
          (match writeUntilCurrentToken ctx with
           | .error e => .error e
           | .ok ctx =>
             match sequenceSt () fuel (goComponentElem fuel isRemoved) () ctx with
             | .error e => .error e
             | .ok (_, _, ctx) => .ok ctx)
      else contOf st (skipNextValue fuel ctx)
    | .ok _ => .error .panicked

/-- game_object (remove_components.rs lines 65 to 96). -/
def gameObject (fuel : Nat) (isRemoved : Int → Bool) (ctx : Context) :
    Except ParserErr (Bool × Context) :=
  match mappingSt false fuel (goBlock fuel isRemoved) () ctx with
  | .error e => .error e
  | .ok (b, _, ctx) => .ok (b, ctx)

/-- filter_yaml of the component removal pass (remove_components.rs lines 37
to 62): only GameObject documents are rescanned, all other types pass
through borrowed. -/
def componentsFilterYaml (fuel : Nat) (isRemoved : Int → Bool)
    (yaml : List Char) (tokens : List Token) : Except ParserErr Cow :=
  match nextT (Context.new yaml tokens) with
  | .error e => .error e
  | .ok (.streamStart, ctx) =>
    match nextT ctx with
    | .error e => .error e
    | .ok (.blockMappingStart, ctx) =>
      match nextT ctx with
      | .error e => .error e
      | .ok (.key, ctx) =>
        match nextScalar ctx with
        | .error e => .error e
        | .ok ((objectType, _), ctx) =>
          match nextT ctx with
          | .error e => .error e
          | .ok (.value, ctx) =>
            if objectType = "GameObject" then
              match gameObject fuel isRemoved ctx with
              | .error e => .error e
              | .ok (omitDoc, ctx) =>
                if omitDoc then .ok emptyCow else closingsAndFinish ctx
            else .ok (.borrowed (.slice 0 yaml.length))
          | .ok _ => .error .panicked
      | .ok _ => .error .panicked
    | .ok _ => .error .panicked
  | .ok _ => .error .panicked

/-! ## Cross document pipeline -/

/-- Modelled from the spec: one document chunk of the stream, with its
verbatim heading line, the parsed heading metadata and the filtered body
(the clean module root defining YamlSection is not under src; the data model
table of the spec lists exactly these fields). -/
structure YamlSection where
  heading : List Char
  parsed : ParsedHeadingLine
  filtered : List Char
deriving DecidableEq, Repr

/-- Rust str::contains of a substring. -/
def containsSub (hay pat : List Char) : Bool :=
  (findSub pat hay).isSome

/-- The literal reference text searched by the pruning pass: an opening
brace, fileID colon space, the decimal file id, a closing brace. -/
def fileRefText (fileId : Int) : List Char :=
  "\x7bfileID: ".toList ++ (toString fileId).toList ++ ['\x7d']

/-- Modelled from the spec: the decision of the stripped-object pruning pass
for the section at index i: a document flagged stripped whose file id
reference text occurs as a substring in no other rewritten body has its
filtered body replaced with the empty string. -/
def prunedAt (sections : List YamlSection) (i : Nat) (s : YamlSection) : YamlSection :=
  if s.parsed.isStripped &&
      !((List.range sections.length).any fun j =>
          j ≠ i &&
          containsSub (((sections.get? j).map YamlSection.filtered).getD [])
            (fileRefText s.parsed.fileId)) then
    { s with filtered := [] }
  else s

/-- Modelled from the spec: the stripped-object pruning pass, applied to
every section against the full list of rewritten bodies. -/
def pruneStrippedSections (sections : List YamlSection) : List YamlSection :=
  (List.range sections.length).filterMap fun i =>
    (sections.get? i).map (prunedAt sections i)

/-- The removed set of the component removal pass
(remove_components.rs lines 10 to 16): the file ids of all sections whose
filtered body is empty. -/
def removedSet (sections : List YamlSection) (id : Int) : Bool :=
  sections.any fun s => s.filtered.isEmpty && s.parsed.fileId = id

/-- filter of the component removal pass (remove_components.rs lines 9
to 35): skip documents already emptied, rescan the others; the tokenize
argument stands for the external tokenizer producing the token stream of a
body. -/
def removeComponentsFilter (fuel : Nat) (tokenize : List Char → List Token)
    (sections : List YamlSection) : Except ParserErr (List YamlSection) :=
  sections.mapM fun s =>
    if s.filtered.isEmpty then .ok s
    else
      match componentsFilterYaml fuel (removedSet sections) s.filtered
          (tokenize s.filtered) with
      | .error e => .error e
      | .ok cow => .ok { s with filtered := cow.render s.filtered }

/-- filter of the schema rewrite pass over all sections (filter/main.rs
lines 10 to 25). -/
def schemaFilter (fuel : Nat) (tokenize : List Char → List Token)
    (sections : List YamlSection) : Except ParserErr (List YamlSection) :=
  sections.mapM fun s =>
    match filterYaml fuel s.filtered (tokenize s.filtered) with
    | .error e => .error e
    | .ok cow => .ok { s with filtered := cow.render s.filtered }

/-- Concrete document text of scenB. -/
def scenBText : List Char :=
  ("PrefabInstance:\n  m_Modification:\n    m_Modifications:\n    - propertyPath: serializedProgramAsset\n      value:\n      target: \x7bfileID: 1, guid: aa, type: 3\x7d\n      objectReference: \x7bfileID: 0\x7d\n").toList

/-- Tokenizer output for scenB, per the token source contract. -/
def scenBTokens : List Token := [
  ⟨⟨0, 0⟩, .streamStart⟩,
  ⟨⟨0, 0⟩, .blockMappingStart⟩,
  ⟨⟨0, 0⟩, .key⟩,
  ⟨⟨0, 14⟩, .scalar .plain "PrefabInstance"⟩,
  ⟨⟨14, 15⟩, .value⟩,
  ⟨⟨18, 18⟩, .blockMappingStart⟩,
  ⟨⟨18, 18⟩, .key⟩,
  ⟨⟨18, 32⟩, .scalar .plain "m_Modification"⟩,
  ⟨⟨32, 33⟩, .value⟩,
  ⟨⟨38, 38⟩, .blockMappingStart⟩,
  ⟨⟨38, 38⟩, .key⟩,
  ⟨⟨38, 53⟩, .scalar .plain "m_Modifications"⟩,
  ⟨⟨53, 54⟩, .value⟩,
  ⟨⟨59, 60⟩, .blockEntry⟩,
  ⟨⟨61, 61⟩, .blockMappingStart⟩,
  ⟨⟨61, 61⟩, .key⟩,
  ⟨⟨61, 73⟩, .scalar .plain "propertyPath"⟩,
  ⟨⟨73, 74⟩, .value⟩,
  ⟨⟨75, 97⟩, .scalar .plain "serializedProgramAsset"⟩,
  ⟨⟨104, 104⟩, .key⟩,
  ⟨⟨104, 109⟩, .scalar .plain "value"⟩,
  ⟨⟨109, 110⟩, .value⟩,
  ⟨⟨117, 117⟩, .key⟩,
  ⟨⟨117, 123⟩, .scalar .plain "target"⟩,
  ⟨⟨123, 124⟩, .value⟩,
  ⟨⟨125, 126⟩, .flowMappingStart⟩,
  ⟨⟨126, 126⟩, .key⟩,
  ⟨⟨126, 132⟩, .scalar .plain "fileID"⟩,
  ⟨⟨132, 133⟩, .value⟩,
  ⟨⟨134, 135⟩, .scalar .plain "1"⟩,
  ⟨⟨135, 136⟩, .flowEntry⟩,
  ⟨⟨137, 137⟩, .key⟩,
  ⟨⟨137, 141⟩, .scalar .plain "guid"⟩,
  ⟨⟨141, 142⟩, .value⟩,
  ⟨⟨143, 145⟩, .scalar .plain "aa"⟩,
  ⟨⟨145, 146⟩, .flowEntry⟩,
  ⟨⟨147, 147⟩, .key⟩,
  ⟨⟨147, 151⟩, .scalar .plain "type"⟩,
  ⟨⟨151, 152⟩, .value⟩,
  ⟨⟨153, 154⟩, .scalar .plain "3"⟩,
  ⟨⟨154, 155⟩, .flowMappingEnd⟩,
  ⟨⟨162, 162⟩, .key⟩,
  ⟨⟨162, 177⟩, .scalar .plain "objectReference"⟩,
  ⟨⟨177, 178⟩, .value⟩,
  ⟨⟨179, 180⟩, .flowMappingStart⟩,
  ⟨⟨180, 180⟩, .key⟩,
  ⟨⟨180, 186⟩, .scalar .plain "fileID"⟩,
  ⟨⟨186, 187⟩, .value⟩,
  ⟨⟨188, 189⟩, .scalar .plain "0"⟩,
  ⟨⟨189, 190⟩, .flowMappingEnd⟩,
  ⟨⟨191, 191⟩, .blockEnd⟩,
  ⟨⟨191, 191⟩, .blockEnd⟩,
  ⟨⟨191, 191⟩, .blockEnd⟩,
  ⟨⟨191, 191⟩, .blockEnd⟩,
  ⟨⟨191, 191⟩, .streamEnd⟩
]

/-- Concrete document text of scenR. -/
def scenRText : List Char :=
  ("RenderSettings:\n  m_Fog: 0\n  m_IndirectSpecularColor: \x7br: 0.18, g: 0.22, b: 0.3, a: 1\x7d\n  m_Sun: \x7bfileID: 0\x7d\n").toList

/-- Tokenizer output for scenR, per the token source contract. -/
def scenRTokens : List Token := [
  ⟨⟨0, 0⟩, .streamStart⟩,
  ⟨⟨0, 0⟩, .blockMappingStart⟩,
  ⟨⟨0, 0⟩, .key⟩,
  ⟨⟨0, 14⟩, .scalar .plain "RenderSettings"⟩,
  ⟨⟨14, 15⟩, .value⟩,
  ⟨⟨18, 18⟩, .blockMappingStart⟩,
  ⟨⟨18, 18⟩, .key⟩,
  ⟨⟨18, 23⟩, .scalar .plain "m_Fog"⟩,
  ⟨⟨23, 24⟩, .value⟩,
  ⟨⟨25, 26⟩, .scalar .plain "0"⟩,
  ⟨⟨29, 29⟩, .key⟩,
  ⟨⟨29, 52⟩, .scalar .plain "m_IndirectSpecularColor"⟩,
  ⟨⟨52, 53⟩, .value⟩,
  ⟨⟨54, 55⟩, .flowMappingStart⟩,
  ⟨⟨55, 55⟩, .key⟩,
  ⟨⟨55, 56⟩, .scalar .plain "r"⟩,
  ⟨⟨56, 57⟩, .value⟩,
  ⟨⟨58, 62⟩, .scalar .plain "0.18"⟩,
  ⟨⟨62, 63⟩, .flowEntry⟩,
  ⟨⟨64, 64⟩, .key⟩,
  ⟨⟨64, 65⟩, .scalar .plain "g"⟩,
  ⟨⟨65, 66⟩, .value⟩,
  ⟨⟨67, 71⟩, .scalar .plain "0.22"⟩,
  ⟨⟨71, 72⟩, .flowEntry⟩,
  ⟨⟨73, 73⟩, .key⟩,
  ⟨⟨73, 74⟩, .scalar .plain "b"⟩,
  ⟨⟨74, 75⟩, .value⟩,
  ⟨⟨76, 79⟩, .scalar .plain "0.3"⟩,
  ⟨⟨79, 80⟩, .flowEntry⟩,
  ⟨⟨81, 81⟩, .key⟩,
  ⟨⟨81, 82⟩, .scalar .plain "a"⟩,
  ⟨⟨82, 83⟩, .value⟩,
  ⟨⟨84, 85⟩, .scalar .plain "1"⟩,
  ⟨⟨85, 86⟩, .flowMappingEnd⟩,
  ⟨⟨89, 89⟩, .key⟩,
  ⟨⟨89, 94⟩, .scalar .plain "m_Sun"⟩,
  ⟨⟨94, 95⟩, .value⟩,
  ⟨⟨96, 97⟩, .flowMappingStart⟩,
  ⟨⟨97, 97⟩, .key⟩,
  ⟨⟨97, 103⟩, .scalar .plain "fileID"⟩,
  ⟨⟨103, 104⟩, .value⟩,
  ⟨⟨105, 106⟩, .scalar .plain "0"⟩,
  ⟨⟨106, 107⟩, .flowMappingEnd⟩,
  ⟨⟨108, 108⟩, .blockEnd⟩,
  ⟨⟨108, 108⟩, .blockEnd⟩,
  ⟨⟨108, 108⟩, .streamEnd⟩
]

/-- Concrete document text of scenA. -/
def scenAText : List Char :=
  ("MonoBehaviour:\n  m_Script: \x7bfileID: 229740497, guid: 4ecd63eff847044b68db9453ce219299, type: 3\x7d\n").toList

/-- Tokenizer output for scenA, per the token source contract. -/
def scenATokens : List Token := [
  ⟨⟨0, 0⟩, .streamStart⟩,
  ⟨⟨0, 0⟩, .blockMappingStart⟩,
  ⟨⟨0, 0⟩, .key⟩,
  ⟨⟨0, 13⟩, .scalar .plain "MonoBehaviour"⟩,
  ⟨⟨13, 14⟩, .value⟩,
  ⟨⟨17, 17⟩, .blockMappingStart⟩,
  ⟨⟨17, 17⟩, .key⟩,
  ⟨⟨17, 25⟩, .scalar .plain "m_Script"⟩,
  ⟨⟨25, 26⟩, .value⟩,
  ⟨⟨27, 28⟩, .flowMappingStart⟩,
  ⟨⟨28, 28⟩, .key⟩,
  ⟨⟨28, 34⟩, .scalar .plain "fileID"⟩,
  ⟨⟨34, 35⟩, .value⟩,
  ⟨⟨36, 45⟩, .scalar .plain "229740497"⟩,
  ⟨⟨45, 46⟩, .flowEntry⟩,
  ⟨⟨47, 47⟩, .key⟩,
  ⟨⟨47, 51⟩, .scalar .plain "guid"⟩,
  ⟨⟨51, 52⟩, .value⟩,
  ⟨⟨53, 85⟩, .scalar .plain "4ecd63eff847044b68db9453ce219299"⟩,
  ⟨⟨85, 86⟩, .flowEntry⟩,
  ⟨⟨87, 87⟩, .key⟩,
  ⟨⟨87, 91⟩, .scalar .plain "type"⟩,
  ⟨⟨91, 92⟩, .value⟩,
  ⟨⟨93, 94⟩, .scalar .plain "3"⟩,
  ⟨⟨94, 95⟩, .flowMappingEnd⟩,
  ⟨⟨96, 96⟩, .blockEnd⟩,
  ⟨⟨96, 96⟩, .blockEnd⟩,
  ⟨⟨96, 96⟩, .streamEnd⟩
]

/-- Concrete document text of scenG. -/
def scenGText : List Char :=
  ("GameObject:\n  serializedVersion: 6\n  m_Component:\n  - component: \x7bfileID: 50\x7d\n  - component: \x7bfileID: 300\x7d\n  m_Name: Text\n").toList

/-- Tokenizer output for scenG, per the token source contract. -/
def scenGTokens : List Token := [
  ⟨⟨0, 0⟩, .streamStart⟩,
  ⟨⟨0, 0⟩, .blockMappingStart⟩,
  ⟨⟨0, 0⟩, .key⟩,
  ⟨⟨0, 10⟩, .scalar .plain "GameObject"⟩,
  ⟨⟨10, 11⟩, .value⟩,
  ⟨⟨14, 14⟩, .blockMappingStart⟩,
  ⟨⟨14, 14⟩, .key⟩,
  ⟨⟨14, 31⟩, .scalar .plain "serializedVersion"⟩,
  ⟨⟨31, 32⟩, .value⟩,
  ⟨⟨33, 34⟩, .scalar .plain "6"⟩,
  ⟨⟨37, 37⟩, .key⟩,
  ⟨⟨37, 48⟩, .scalar .plain "m_Component"⟩,
  ⟨⟨48, 49⟩, .value⟩,
  ⟨⟨52, 53⟩, .blockEntry⟩,
  ⟨⟨54, 54⟩, .blockMappingStart⟩,
  ⟨⟨54, 54⟩, .key⟩,
  ⟨⟨54, 63⟩, .scalar .plain "component"⟩,
  ⟨⟨63, 64⟩, .value⟩,
  ⟨⟨65, 66⟩, .flowMappingStart⟩,
  ⟨⟨66, 66⟩, .key⟩,
  ⟨⟨66, 72⟩, .scalar .plain "fileID"⟩,
  ⟨⟨72, 73⟩, .value⟩,
  ⟨⟨74, 76⟩, .scalar .plain "50"⟩,
  ⟨⟨76, 77⟩, .flowMappingEnd⟩,
  ⟨⟨80, 80⟩, .blockEnd⟩,
  ⟨⟨80, 81⟩, .blockEntry⟩,
  ⟨⟨82, 82⟩, .blockMappingStart⟩,
  ⟨⟨82, 82⟩, .key⟩,
  ⟨⟨82, 91⟩, .scalar .plain "component"⟩,
  ⟨⟨91, 92⟩, .value⟩,
  ⟨⟨93, 94⟩, .flowMappingStart⟩,
  ⟨⟨94, 94⟩, .key⟩,
  ⟨⟨94, 100⟩, .scalar .plain "fileID"⟩,
  ⟨⟨100, 101⟩, .value⟩,
  ⟨⟨102, 105⟩, .scalar .plain "300"⟩,
  ⟨⟨105, 106⟩, .flowMappingEnd⟩,
  ⟨⟨109, 109⟩, .blockEnd⟩,
  ⟨⟨109, 109⟩, .key⟩,
  ⟨⟨109, 115⟩, .scalar .plain "m_Name"⟩,
  ⟨⟨115, 116⟩, .value⟩,
  ⟨⟨117, 121⟩, .scalar .plain "Text"⟩,
  ⟨⟨122, 122⟩, .blockEnd⟩,
  ⟨⟨122, 122⟩, .blockEnd⟩,
  ⟨⟨122, 122⟩, .streamEnd⟩
]

/-- Concrete document text of scenH. -/
def scenHText : List Char :=
  ("GameObject:\n  serializedVersion: 6\n  m_Component:\n  - component: \x7bfileID: 300\x7d\n  - component: \x7bfileID: 50\x7d\n  m_Name: Text\n").toList

/-- Tokenizer output for scenH, per the token source contract. -/
def scenHTokens : List Token := [
  ⟨⟨0, 0⟩, .streamStart⟩,
  ⟨⟨0, 0⟩, .blockMappingStart⟩,
  ⟨⟨0, 0⟩, .key⟩,
  ⟨⟨0, 10⟩, .scalar .plain "GameObject"⟩,
  ⟨⟨10, 11⟩, .value⟩,
  ⟨⟨14, 14⟩, .blockMappingStart⟩,
  ⟨⟨14, 14⟩, .key⟩,
  ⟨⟨14, 31⟩, .scalar .plain "serializedVersion"⟩,
  ⟨⟨31, 32⟩, .value⟩,
  ⟨⟨33, 34⟩, .scalar .plain "6"⟩,
  ⟨⟨37, 37⟩, .key⟩,
  ⟨⟨37, 48⟩, .scalar .plain "m_Component"⟩,
  ⟨⟨48, 49⟩, .value⟩,
  ⟨⟨52, 53⟩, .blockEntry⟩,
  ⟨⟨54, 54⟩, .blockMappingStart⟩,
  ⟨⟨54, 54⟩, .key⟩,
  ⟨⟨54, 63⟩, .scalar .plain "component"⟩,
  ⟨⟨63, 64⟩, .value⟩,
  ⟨⟨65, 66⟩, .flowMappingStart⟩,
  ⟨⟨66, 66⟩, .key⟩,
  ⟨⟨66, 72⟩, .scalar .plain "fileID"⟩,
  ⟨⟨72, 73⟩, .value⟩,
  ⟨⟨74, 77⟩, .scalar .plain "300"⟩,
  ⟨⟨77, 78⟩, .flowMappingEnd⟩,
  ⟨⟨81, 81⟩, .blockEnd⟩,
  ⟨⟨81, 82⟩, .blockEntry⟩,
  ⟨⟨83, 83⟩, .blockMappingStart⟩,
  ⟨⟨83, 83⟩, .key⟩,
  ⟨⟨83, 92⟩, .scalar .plain "component"⟩,
  ⟨⟨92, 93⟩, .value⟩,
  ⟨⟨94, 95⟩, .flowMappingStart⟩,
  ⟨⟨95, 95⟩, .key⟩,
  ⟨⟨95, 101⟩, .scalar .plain "fileID"⟩,
  ⟨⟨101, 102⟩, .value⟩,
  ⟨⟨103, 105⟩, .scalar .plain "50"⟩,
  ⟨⟨105, 106⟩, .flowMappingEnd⟩,
  ⟨⟨109, 109⟩, .blockEnd⟩,
  ⟨⟨109, 109⟩, .key⟩,
  ⟨⟨109, 115⟩, .scalar .plain "m_Name"⟩,
  ⟨⟨115, 116⟩, .value⟩,
  ⟨⟨117, 121⟩, .scalar .plain "Text"⟩,
  ⟨⟨122, 122⟩, .blockEnd⟩,
  ⟨⟨122, 122⟩, .blockEnd⟩,
  ⟨⟨122, 122⟩, .streamEnd⟩
]

/-- Concrete document text of scenS. -/
def scenSText : List Char :=
  ("Transform:\n  m_Something: 1\n").toList

/-- Tokenizer output for scenS, per the token source contract. -/
def scenSTokens : List Token := [
  ⟨⟨0, 0⟩, .streamStart⟩,
  ⟨⟨0, 0⟩, .blockMappingStart⟩,
  ⟨⟨0, 0⟩, .key⟩,
  ⟨⟨0, 9⟩, .scalar .plain "Transform"⟩,
  ⟨⟨9, 10⟩, .value⟩
]


/-- Modelled from the spec: the fixed pass order of the pipeline driver over
the split documents: schema rewrite, then stripped-object pruning, then
component removal (spec section 5; the driver itself is not under src). -/
def fullPipeline (fuel : Nat) (tokenize : List Char → List Token)
    (sections : List YamlSection) : Except ParserErr (List YamlSection) :=
  match schemaFilter fuel tokenize sections with
  | .error e => .error e
  | .ok l => removeComponentsFilter fuel tokenize (pruneStrippedSections l)

/-- Concrete tokenizer table for the scenario bodies. -/
def scenTokenize (b : List Char) : List Token :=
  if b = scenHText then scenHTokens
  else if b = scenGText then scenGTokens
  else if b = scenAText then scenATokens
  else if b = scenSText then scenSTokens
  else []

/-- A stripped placeholder section, file id 100, referenced nowhere. -/
def secS : YamlSection := ⟨[], ⟨100, true⟩, scenSText⟩

/-- The MonoBehaviour section with the sentinel script, file id 300. -/
def secA : YamlSection := ⟨[], ⟨300, false⟩, scenAText⟩

/-- The GameObject section whose second component entry points at 300. -/
def secG : YamlSection := ⟨[], ⟨200, false⟩, scenGText⟩

/-- The GameObject section whose first component entry points at 300. -/
def secH : YamlSection := ⟨[], ⟨200, false⟩, scenHText⟩

/-! ## Well formed skippable values (claim C7) -/

mutual
/-- Shapes of YAML values at the cursor: scalar, elided, empty flow
sequence, block or flow mapping, block sequence. -/
inductive VT
  | scalar (sty : TScalarStyle) (s : String)
  | elided
  | emptyFlowSeq
  | blockMap (body : BPairs)
  | flowMap (body : FPairs)
  | blockSeq (first : VT) (rest : BItems)
/-- Body of a block mapping: a list of key value pairs. -/
inductive BPairs
  | nil
  | cons (k v : VT) (rest : BPairs)
/-- Body of a flow mapping: a list of key value pairs. -/
inductive FPairs
  | nil
  | cons (k v : VT) (rest : FPairs)
/-- Further items of a block sequence. -/
inductive BItems
  | nil
  | cons (i : VT) (rest : BItems)
end

mutual
/-- The token stream of a value shape, every token carrying marker m. -/
def tokensOf (m : Marker) : VT → List Token
  | .scalar sty s => [⟨m, .scalar sty s⟩]
  | .elided => []
  | .emptyFlowSeq => [⟨m, .flowSequenceStart⟩, ⟨m, .flowSequenceEnd⟩]
  | .blockMap body => ⟨m, .blockMappingStart⟩ :: tokensOfB m body
  | .flowMap body => ⟨m, .flowMappingStart⟩ :: tokensOfF m body
  | .blockSeq first rest =>
    ⟨m, .blockEntry⟩ :: (tokensOf m first ++ tokensOfI m rest)
/-- Tokens of a block mapping body including the closing BlockEnd. -/
def tokensOfB (m : Marker) : BPairs → List Token
  | .nil => [⟨m, .blockEnd⟩]
  | .cons k v rest =>
    ⟨m, .key⟩ :: (tokensOf m k ++ ⟨m, .value⟩ ::
      (tokensOf m v ++ tokensOfB m rest))
/-- Tokens of a flow mapping body including separators and the closing
FlowMappingEnd. -/
def tokensOfF (m : Marker) : FPairs → List Token
  | .nil => [⟨m, .flowMappingEnd⟩]
  | .cons k v rest =>
    ⟨m, .key⟩ :: (tokensOf m k ++ ⟨m, .value⟩ ::
      (tokensOf m v ++ (sepF m rest ++ tokensOfF m rest)))
/-- The flow entry separator standing before every pair except the last. -/
def sepF (m : Marker) : FPairs → List Token
  | .nil => []
  | .cons _ _ _ => [⟨m, .flowEntry⟩]
/-- Tokens of the remaining items of a block sequence. -/
def tokensOfI (m : Marker) : BItems → List Token
  | .nil => []
  | .cons i rest => ⟨m, .blockEntry⟩ :: (tokensOf m i ++ tokensOfI m rest)
end

/-- A value shape that stands on its own as a sequence item: not elided and
not itself a block sequence. -/
def topSolid : VT → Bool
  | .elided => false
  | .blockSeq _ _ => false
  | _ => true

mutual
/-- Well formedness of a value shape: items of block sequences are solid
values. -/
def okTree : VT → Bool
  | .scalar _ _ => true
  | .elided => true
  | .emptyFlowSeq => true
  | .blockMap body => okB body
  | .flowMap body => okF body
  | .blockSeq first rest => topSolid first && okTree first && okI rest
/-- Well formedness of a block mapping body. -/
def okB : BPairs → Bool
  | .nil => true
  | .cons k v rest => okTree k && okTree v && okB rest
/-- Well formedness of a flow mapping body. -/
def okF : FPairs → Bool
  | .nil => true
  | .cons k v rest => okTree k && okTree v && okF rest
/-- Well formedness of block sequence items. -/
def okI : BItems → Bool
  | .nil => true
  | .cons i rest => topSolid i && okTree i && okI rest
end

/-- The condition the tokens after a value must satisfy: an elided value
needs a structural lookahead token, a block sequence ends at the first
lookahead that is not a block entry. -/
def followOkFor (t : VT) (rest : List Token) : Prop :=
  match t with
  | .elided => ∃ tk tl, rest = tk :: tl ∧
      (tk.tok = TokenType.blockEnd ∨ tk.tok = TokenType.flowMappingEnd ∨
       tk.tok = TokenType.key ∨ tk.tok = TokenType.value)
  | .blockSeq _ _ => ∃ tk tl, rest = tk :: tl ∧ tk.tok ≠ TokenType.blockEntry
  | _ => True

/-- One token consumed: the cursor advance of Context::next. -/
def consumeTok (ctx : Context) : Context :=
  match ctx.tokens with
  | [] => ctx
  | t :: rest => { ctx with tokens := rest, lastMark := ctx.mrk, mrk := some t.mrk }

/-- n tokens consumed. -/
def consumeN : Nat → Context → Context
  | 0, c => c
  | n + 1, c => consumeN n (consumeTok c)

/-- Advance a context past one token, for concrete witness instances. -/
def stepTok (c : Context) : Context :=
  match nextT c with
  | .ok (_, c2) => c2
  | .error _ => c

/-- Advance a context past one scalar, for concrete witness instances. -/
def stepScal (c : Context) : Context :=
  match nextScalar c with
  | .ok (_, c2) => c2
  | .error _ => c

/-- Result of parse_object_reference as a plain pair, for concrete witness
instances. -/
def poRes (fuel : Nat) (c : Context) : ObjectReference × Context :=
  match parseObjectReference fuel c with
  | .ok p => p
  | .error _ => (ObjectReference.null, c)

/-- The context of the scenA document right after the mapping loop consumed
the key token of m_Script: the point where the visitor runs. -/
def scenAHdr : Context :=
  stepTok (stepTok (stepTok (stepScal (stepTok (stepTok (stepTok
    (Context.new scenAText scenATokens)))))))

/-! ## Theorems -/

/-- Builder state equality: the two contexts agree on everything the output
builder owns (committed offset, pending span, fragments, original text). -/
def BuilderEq (a b : Context) : Prop :=
  a.printed = b.printed ∧ a.willWrite = b.willWrite ∧
    a.result = b.result ∧ a.yaml = b.yaml

theorem BuilderEq.refl (a : Context) : BuilderEq a a := ⟨rfl, rfl, rfl, rfl⟩

theorem BuilderEq.trans {a b c : Context} (h1 : BuilderEq a b) (h2 : BuilderEq b c) :
    BuilderEq a c :=
  ⟨h1.1.trans h2.1, h1.2.1.trans h2.2.1, h1.2.2.1.trans h2.2.2.1, h1.2.2.2.trans h2.2.2.2⟩

theorem nextT_builderEq {ctx : Context} {t : TokenType} {c : Context}
    (h : nextT ctx = .ok (t, c)) : BuilderEq c ctx := by
  unfold nextT at h
  cases htk : ctx.tokens with
  | nil => rw [htk] at h; cases h
  | cons a rest =>
    rw [htk] at h
    cases h
    exact ⟨rfl, rfl, rfl, rfl⟩

theorem nextScalar_builderEq {ctx : Context} {v : String × TScalarStyle} {c : Context}
    (h : nextScalar ctx = .ok (v, c)) : BuilderEq c ctx := by
  unfold nextScalar at h
  cases hp : peekT ctx with
  | error e => rw [hp] at h; cases h
  | ok t =>
    rw [hp] at h
    cases t <;> simp only [] at h
    case scalar sty s =>
      cases hn : nextT ctx with
      | error e => rw [hn] at h; cases h
      | ok tc =>
        rw [hn] at h
        obtain ⟨t2, c2⟩ := tc
        cases t2 <;> cases h
        all_goals exact nextT_builderEq hn
    all_goals (cases h <;> exact BuilderEq.refl ctx)

theorem mappingLoopBlockSt_builderEq {σ R : Type} {dflt : R}
    {block : σ → Context → Except ParserErr (Flow R × σ × Context)}
    (hb : ∀ st c f2 st2 c2, block st c = .ok (f2, st2, c2) → BuilderEq c2 c) :
    ∀ fuel st ctx r st' ctx',
      mappingLoopBlockSt dflt block fuel st ctx = .ok (r, st', ctx') →
        BuilderEq ctx' ctx := by
  intro fuel
  induction fuel with
  | zero => intro st ctx r st' ctx' h; cases h
  | succ f ih =>
    intro st ctx r st' ctx' h
    unfold mappingLoopBlockSt at h
    cases hn : nextT ctx with
    | error e => rw [hn] at h; cases h
    | ok tc =>
      rw [hn] at h
      obtain ⟨t, c1⟩ := tc
      have hb1 := nextT_builderEq hn
      cases t
      case key =>
        simp only [] at h
        cases hbk : block st c1 with
        | error e => rw [hbk] at h; cases h
        | ok fc =>
          rw [hbk] at h
          obtain ⟨f2, st2, c2⟩ := fc
          have hb2 := hb _ _ _ _ _ hbk
          cases f2 with
          | brk r2 => cases h; exact hb2.trans hb1
          | cont => exact ((ih _ _ _ _ _ h).trans (hb2.trans hb1))
      case blockEnd => cases h; exact hb1
      all_goals cases h

theorem mappingLoopFlowSt_builderEq {σ R : Type} {dflt : R}
    {block : σ → Context → Except ParserErr (Flow R × σ × Context)}
    (hb : ∀ st c f2 st2 c2, block st c = .ok (f2, st2, c2) → BuilderEq c2 c) :
    ∀ fuel st ctx r st' ctx',
      mappingLoopFlowSt dflt block fuel st ctx = .ok (r, st', ctx') →
        BuilderEq ctx' ctx := by
  intro fuel
  induction fuel with
  | zero => intro st ctx r st' ctx' h; cases h
  | succ f ih =>
    intro st ctx r st' ctx' h
    unfold mappingLoopFlowSt at h
    cases hn : nextT ctx with
    | error e => rw [hn] at h; cases h
    | ok tc =>
      rw [hn] at h
      obtain ⟨t, c1⟩ := tc
      have hb1 := nextT_builderEq hn
      cases t
      case key =>
        simp only [] at h
        cases hbk : block st c1 with
        | error e => rw [hbk] at h; cases h
        | ok fc =>
          rw [hbk] at h
          obtain ⟨f2, st2, c2⟩ := fc
          have hb2 := hb _ _ _ _ _ hbk
          cases f2 with
          | brk r2 => cases h; exact hb2.trans hb1
          | cont =>
            simp only [] at h
            cases hn2 : nextT c2 with
            | error e => rw [hn2] at h; cases h
            | ok tc2 =>
              rw [hn2] at h
              obtain ⟨t2, c3⟩ := tc2
              have hb3 := nextT_builderEq hn2
              cases t2
              case flowEntry =>
                simp only [] at h
                exact ((ih _ _ _ _ _ h).trans (hb3.trans (hb2.trans hb1)))
              case flowMappingEnd => cases h; exact hb3.trans (hb2.trans hb1)
              all_goals cases h
      case flowMappingEnd => cases h; exact hb1
      all_goals cases h

theorem mappingSt_builderEq {σ R : Type} {dflt : R}
    {block : σ → Context → Except ParserErr (Flow R × σ × Context)}
    (hb : ∀ st c f2 st2 c2, block st c = .ok (f2, st2, c2) → BuilderEq c2 c)
    {fuel : Nat} {st : σ} {ctx : Context} {r : R} {st' : σ} {ctx' : Context}
    (h : mappingSt dflt fuel block st ctx = .ok (r, st', ctx')) :
    BuilderEq ctx' ctx := by
  unfold mappingSt at h
  cases hn : nextT ctx with
  | error e => rw [hn] at h; cases h
  | ok tc =>
    rw [hn] at h
    obtain ⟨t, c1⟩ := tc
    have hb1 := nextT_builderEq hn
    cases t
    case blockMappingStart =>
      simp only [] at h
      exact (mappingLoopBlockSt_builderEq hb _ _ _ _ _ _ h).trans hb1
    case flowMappingStart =>
      simp only [] at h
      exact (mappingLoopFlowSt_builderEq hb _ _ _ _ _ _ h).trans hb1
    all_goals cases h

theorem sequenceLoopBlockSt_builderEq {σ R : Type} {dflt : R}
    {block : σ → Context → Except ParserErr (Flow R × σ × Context)}
    (hb : ∀ st c f2 st2 c2, block st c = .ok (f2, st2, c2) → BuilderEq c2 c) :
    ∀ fuel st ctx r st' ctx',
      sequenceLoopBlockSt dflt block fuel st ctx = .ok (r, st', ctx') →
        BuilderEq ctx' ctx := by
  intro fuel
  induction fuel with
  | zero => intro st ctx r st' ctx' h; cases h
  | succ f ih =>
    intro st ctx r st' ctx' h
    unfold sequenceLoopBlockSt at h
    cases hp : peekT ctx with
    | error e => rw [hp] at h; cases h
    | ok t =>
      rw [hp] at h
      cases t
      case blockEntry =>
        simp only [] at h
        cases hn : nextT ctx with
        | error e => rw [hn] at h; cases h
        | ok tc =>
          rw [hn] at h
          obtain ⟨t1, c1⟩ := tc
          have hb1 := nextT_builderEq hn
          simp only [] at h
          cases hbk : block st c1 with
          | error e => rw [hbk] at h; cases h
          | ok fc =>
            rw [hbk] at h
            obtain ⟨f2, st2, c2⟩ := fc
            have hb2 := hb _ _ _ _ _ hbk
            cases f2 with
            | brk r2 => cases h; exact hb2.trans hb1
            | cont => exact ((ih _ _ _ _ _ h).trans (hb2.trans hb1))
      all_goals (cases h; exact BuilderEq.refl ctx)

theorem sequenceLoopFlowSt_builderEq {σ R : Type} {dflt : R}
    {block : σ → Context → Except ParserErr (Flow R × σ × Context)}
    (hb : ∀ st c f2 st2 c2, block st c = .ok (f2, st2, c2) → BuilderEq c2 c) :
    ∀ fuel st ctx r st' ctx',
      sequenceLoopFlowSt dflt block fuel st ctx = .ok (r, st', ctx') →
        BuilderEq ctx' ctx := by
  intro fuel
  induction fuel with
  | zero => intro st ctx r st' ctx' h; cases h
  | succ f ih =>
    intro st ctx r st' ctx' h
    unfold sequenceLoopFlowSt at h
    cases hp : peekT ctx with
    | error e => rw [hp] at h; cases h
    | ok t =>
      rw [hp] at h
      cases t
      case flowSequenceEnd =>
        simp only [] at h
        cases hn : nextT ctx with
        | error e => rw [hn] at h; cases h
        | ok tc =>
          rw [hn] at h
          obtain ⟨t1, c1⟩ := tc
          cases h
          exact nextT_builderEq hn
      all_goals simp only [] at h
      all_goals
        cases hbk : block st ctx with
        | error e => rw [hbk] at h; cases h
        | ok fc =>
          rw [hbk] at h
          obtain ⟨f2, st2, c2⟩ := fc
          have hb2 := hb _ _ _ _ _ hbk
          cases f2 with
          | brk r2 => cases h; exact hb2
          | cont =>
            simp only [] at h
            cases hn2 : nextT c2 with
            | error e => rw [hn2] at h; cases h
            | ok tc2 =>
              rw [hn2] at h
              obtain ⟨t2, c3⟩ := tc2
              have hb3 := nextT_builderEq hn2
              cases t2
              case flowEntry =>
                simp only [] at h
                exact ((ih _ _ _ _ _ h).trans (hb3.trans hb2))
              case flowSequenceEnd => cases h; exact hb3.trans hb2
              all_goals cases h

theorem sequenceSt_builderEq {σ R : Type} {dflt : R}
    {block : σ → Context → Except ParserErr (Flow R × σ × Context)}
    (hb : ∀ st c f2 st2 c2, block st c = .ok (f2, st2, c2) → BuilderEq c2 c)
    {fuel : Nat} {st : σ} {ctx : Context} {r : R} {st' : σ} {ctx' : Context}
    (h : sequenceSt dflt fuel block st ctx = .ok (r, st', ctx')) :
    BuilderEq ctx' ctx := by
  unfold sequenceSt at h
  cases hn : nextT ctx with
  | error e => rw [hn] at h; cases h
  | ok tc =>
    rw [hn] at h
    obtain ⟨t, c1⟩ := tc
    have hb1 := nextT_builderEq hn
    cases t
    case blockEntry =>
      simp only [] at h
      cases hbk : block st c1 with
      | error e => rw [hbk] at h; cases h
      | ok fc =>
        rw [hbk] at h
        obtain ⟨f2, st2, c2⟩ := fc
        have hb2 := hb _ _ _ _ _ hbk
        cases f2 with
        | brk r2 => cases h; exact hb2.trans hb1
        | cont =>
          exact ((sequenceLoopBlockSt_builderEq hb _ _ _ _ _ _ h).trans
            (hb2.trans hb1))
    case flowSequenceStart =>
      simp only [] at h
      exact (sequenceLoopFlowSt_builderEq hb _ _ _ _ _ _ h).trans hb1
    all_goals cases h

theorem skipEntries_builderEq {skipv : Context → Except ParserErr Context}
    (hs : ∀ c c', skipv c = .ok c' → BuilderEq c' c) :
    ∀ fuel ctx ctx', skipEntries skipv fuel ctx = .ok ctx' → BuilderEq ctx' ctx := by
  intro fuel
  induction fuel with
  | zero => intro ctx ctx' h; cases h
  | succ f ih =>
    intro ctx ctx' h
    unfold skipEntries at h
    cases hp : peekT ctx with
    | error e => rw [hp] at h; cases h
    | ok t =>
      rw [hp] at h
      cases t
      case blockEntry =>
        simp only [] at h
        cases hn : nextT ctx with
        | error e => rw [hn] at h; cases h
        | ok tc =>
          rw [hn] at h
          obtain ⟨t1, c1⟩ := tc
          have hb1 := nextT_builderEq hn
          simp only [] at h
          cases hsk : skipv c1 with
          | error e => rw [hsk] at h; cases h
          | ok c2 =>
            rw [hsk] at h
            exact ((ih _ _ h).trans ((hs _ _ hsk).trans hb1))
      all_goals (cases h; exact BuilderEq.refl ctx)

theorem skipMapBlock_builderEq {skipv : Context → Except ParserErr Context}
    (hs : ∀ c c', skipv c = .ok c' → BuilderEq c' c) :
    ∀ (st : Unit) c f2 st2 c2,
      skipMapBlock skipv st c = .ok (f2, st2, c2) → BuilderEq c2 c := by
  intro st c f2 st2 c2 hm
  unfold skipMapBlock at hm
  cases hs1 : skipv c with
  | error e => rw [hs1] at hm; cases hm
  | ok d1 =>
    rw [hs1] at hm
    simp only [] at hm
    have hc1 := hs _ _ hs1
    cases hn : nextT d1 with
    | error e => rw [hn] at hm; cases hm
    | ok tc =>
      rw [hn] at hm
      obtain ⟨t1, d2⟩ := tc
      have hc2 := nextT_builderEq hn
      cases t1
      case value =>
        simp only [] at hm
        cases hp2 : peekT d2 with
        | error e =>
          rw [hp2] at hm
          simp only [] at hm
          cases hs2 : skipv d2 with
          | error e2 => rw [hs2] at hm; cases hm
          | ok d3 =>
            rw [hs2] at hm
            cases hm
            exact ((hs _ _ hs2).trans (hc2.trans hc1))
        | ok t2 =>
          rw [hp2] at hm
          cases t2
          case flowEntry => cases hm; exact hc2.trans hc1
          all_goals
            simp only [] at hm
            cases hs2 : skipv d2 with
            | error e2 => rw [hs2] at hm; cases hm
            | ok d3 =>
              rw [hs2] at hm
              cases hm
              exact ((hs _ _ hs2).trans (hc2.trans hc1))
      all_goals cases hm

theorem skipNextValue_builderEq :
    ∀ fuel ctx ctx', skipNextValue fuel ctx = .ok ctx' → BuilderEq ctx' ctx := by
  intro fuel
  induction fuel with
  | zero => intro ctx ctx' h; cases h
  | succ f ih =>
    intro ctx ctx' h
    have hblock := skipMapBlock_builderEq (fun c c' hc => ih c c' hc)
    unfold skipNextValue at h
    cases hp : peekT ctx with
    | error e => rw [hp] at h; cases h
    | ok t =>
      rw [hp] at h
      cases t
      case blockEnd => cases h; exact BuilderEq.refl ctx
      case flowMappingEnd => cases h; exact BuilderEq.refl ctx
      case key => cases h; exact BuilderEq.refl ctx
      case value => cases h; exact BuilderEq.refl ctx
      case blockMappingStart =>
        simp only [] at h
        cases hm : mappingSt () f (skipMapBlock (skipNextValue f)) () ctx with
        | error e => rw [hm] at h; cases h
        | ok rc =>
          rw [hm] at h
          obtain ⟨r, st, c2⟩ := rc
          cases h
          exact mappingSt_builderEq hblock hm
      case flowMappingStart =>
        simp only [] at h
        cases hm : mappingSt () f (skipMapBlock (skipNextValue f)) () ctx with
        | error e => rw [hm] at h; cases h
        | ok rc =>
          rw [hm] at h
          obtain ⟨r, st, c2⟩ := rc
          cases h
          exact mappingSt_builderEq hblock hm
      case blockEntry =>
        simp only [] at h
        exact skipEntries_builderEq (fun c c' hc => ih c c' hc) _ _ _ h
      case flowSequenceStart =>
        simp only [] at h
        cases hn : nextT ctx with
        | error e => rw [hn] at h; cases h
        | ok tc =>
          rw [hn] at h
          obtain ⟨t1, c1⟩ := tc
          have hb1 := nextT_builderEq hn
          simp only [] at h
          cases hn2 : nextT c1 with
          | error e => rw [hn2] at h; cases h
          | ok tc2 =>
            rw [hn2] at h
            obtain ⟨t2, c2⟩ := tc2
            have hb2 := nextT_builderEq hn2
            cases t2
            case flowSequenceEnd => cases h; exact hb2.trans hb1
            all_goals cases h
      case scalar sty s =>
        simp only [] at h
        cases hn : nextT ctx with
        | error e => rw [hn] at h; cases h
        | ok tc =>
          rw [hn] at h
          obtain ⟨t1, c1⟩ := tc
          cases h
          exact nextT_builderEq hn
      all_goals cases h

theorem orBlock_builderEq :
    ∀ st c f2 st2 c2, orBlock st c = .ok (f2, st2, c2) → BuilderEq c2 c := by
  intro st c f2 st2 c2 hm
  unfold orBlock at hm
  cases hns : nextScalar c with
  | error e => rw [hns] at hm; cases hm
  | ok vc =>
    rw [hns] at hm
    obtain ⟨⟨name, sty⟩, c1⟩ := vc
    have hc1 := nextScalar_builderEq hns
    simp only [] at hm
    cases hn : nextT c1 with
    | error e => rw [hn] at hm; cases hm
    | ok tc =>
      rw [hn] at hm
      obtain ⟨t1, c2x⟩ := tc
      have hc2 := nextT_builderEq hn
      cases t1
      case value =>
        simp only [] at hm
        by_cases h1 : name = "fileID" <;> simp only [h1, if_true, if_false] at hm
        · cases hns2 : nextScalar c2x with
          | error e => rw [hns2] at hm; cases hm
          | ok vc2 =>
            rw [hns2] at hm
            obtain ⟨⟨v, sty2⟩, c3⟩ := vc2
            have hc3 := nextScalar_builderEq hns2
            simp only [] at hm
            cases hpi : parseI64 v.toList with
            | none => rw [hpi] at hm; cases hm
            | some n =>
              rw [hpi] at hm
              cases hm
              exact hc3.trans (hc2.trans hc1)
        · by_cases h2 : name = "guid" <;> simp only [h2, if_true, if_false] at hm
          · cases hns2 : nextScalar c2x with
            | error e => rw [hns2] at hm; cases hm
            | ok vc2 =>
              rw [hns2] at hm
              obtain ⟨⟨v, sty2⟩, c3⟩ := vc2
              cases hm
              exact (nextScalar_builderEq hns2).trans (hc2.trans hc1)
          · by_cases h3 : name = "type" <;> simp only [h3, if_true, if_false] at hm
            · cases hns2 : nextScalar c2x with
              | error e => rw [hns2] at hm; cases hm
              | ok vc2 =>
                rw [hns2] at hm
                obtain ⟨⟨v, sty2⟩, c3⟩ := vc2
                have hc3 := nextScalar_builderEq hns2
                simp only [] at hm
                cases hpu : parseU32 v.toList with
                | none => rw [hpu] at hm; cases hm
                | some n =>
                  rw [hpu] at hm
                  cases hm
                  exact hc3.trans (hc2.trans hc1)
            · cases hm
      all_goals cases hm

theorem parseObjectReference_builderEq {fuel : Nat} {ctx : Context}
    {r : ObjectReference} {ctx' : Context}
    (h : parseObjectReference fuel ctx = .ok (r, ctx')) : BuilderEq ctx' ctx := by
  unfold parseObjectReference at h
  cases hm : mappingSt () fuel orBlock (none, none, none) ctx with
  | error e => rw [hm] at h; cases h
  | ok rc =>
    rw [hm] at h
    obtain ⟨u, ⟨fidOpt, guidOpt, typeOpt⟩, c1⟩ := rc
    have hb := mappingSt_builderEq orBlock_builderEq hm
    cases fidOpt with
    | none => cases h
    | some fid =>
      simp only [] at h
      by_cases hz : fid = 0 <;> simp only [hz, if_true, if_false] at h
      · cases h; exact hb
      · cases guidOpt with
        | some g =>
          simp only [] at h
          cases typeOpt with
          | some ty => cases h; exact hb
          | none => cases h
        | none => cases h; exact hb

/-- Claim C4: for a recognized-type document in which no field matched a
rewrite rule, no write, skip or append was performed before the final flush,
so the builder is still in its initial state; finish then returns a single
fragment borrowed from the original input text and covering the whole
document, rendering byte for byte as the input.  The second conjunct states
that the read-only traversal used for ignored fields (skip_next_value, and
with it every engine operation that only consumes tokens) leaves the
builder state untouched, so such documents do reach finish in the initial
builder state. -/
theorem c4_zero_edit_single_borrowed_fragment :
    (∀ (yaml : List Char) (tokens : List Token) (lm mk : Option Marker),
        yaml ≠ [] →
        Context.finish
            { printed := 0, yaml := yaml, tokens := tokens, lastMark := lm,
              mrk := mk, willWrite := none, result := [] } =
          .ok (.borrowed (.slice 0 yaml.length)) ∧
        Cow.render yaml (.borrowed (.slice 0 yaml.length)) = yaml) ∧
    (∀ fuel ctx ctx', skipNextValue fuel ctx = .ok ctx' → BuilderEq ctx' ctx) := by
  refine ⟨fun yaml tokens lm mk hne => ⟨?_, ?_⟩, skipNextValue_builderEq⟩
  · have hlen : yaml.length ≠ 0 := fun h => hne (List.length_eq_zero.mp h)
    have hpos : 0 < yaml.length := Nat.pos_of_ne_zero hlen
    unfold Context.finish Context.bAppend Context.clearWillWrite
    simp [hlen, hpos, Ne.symm hlen, Bind.bind, Except.bind]
  · simp [Cow.render, Frag.render]

/-- Witness for claim C4 at a concrete one-character document. -/
theorem c4_witness :
    ("a").toList ≠ [] ∧
      (Context.finish
          { printed := 0, yaml := ("a").toList, tokens := [], lastMark := none,
            mrk := none, willWrite := none, result := [] } =
        .ok (.borrowed (.slice 0 ("a").toList.length)) ∧
      Cow.render ("a").toList (.borrowed (.slice 0 ("a").toList.length)) = ("a").toList) :=
  ⟨by decide, c4_zero_edit_single_borrowed_fragment.1 ("a").toList [] none none (by decide)⟩

set_option maxRecDepth 100000 in
set_option maxHeartbeats 1000000 in
/-- Claim C1 (code bug): on the scenario B document — a PrefabInstance whose
only modification record has propertyPath serializedProgramAsset and an
elided value — filter_yaml keeps the record and returns the whole document
unchanged (as one borrowed fragment), instead of rendering m_Modifications
as the flow sequence [].  The cause is the sentinel mismatch the claim
points at: next_scalar returns the empty string for an elided value
(filter/context.rs line 127) while should_omit compares the value against
the tilde string (filter/main.rs line 285), so should_omit is false on the
elided sentinel.  The repository's own tests
(filter/main.rs, test_prefab_modifications) expect the record to be
deleted. -/
theorem c1_elided_sentinel_mismatch :
    filterYaml 300 scenBText scenBTokens
        = .ok (.borrowed (.slice 0 scenBText.length)) ∧
    Cow.render scenBText (.borrowed (.slice 0 scenBText.length)) = scenBText ∧
    nextScalar (Context.new [] [⟨⟨0, 0⟩, .key⟩])
        = .ok (("", .plain), Context.new [] [⟨⟨0, 0⟩, .key⟩]) ∧
    shouldOmit "serializedProgramAsset" "" ObjectReference.null = false ∧
    shouldOmit "serializedProgramAsset" "~" ObjectReference.null = true ∧
    containsSub scenBText (("m_Modifications: []").toList) = false ∧
    containsSub scenBText (("propertyPath: serializedProgramAsset").toList) = true :=
  ⟨by rfl, by rfl, by rfl, by rfl, by rfl, by rfl, by rfl⟩

/-- Claim C7 counterexample: skip_next_value does not succeed on the
non-empty flow sequence [a, b]; the source expects the closing bracket
immediately after the opening one and panics on the first element. -/
theorem c7_counterexample_nonempty_flow_sequence :
    skipNextValue 10 (Context.new (("[a, b]").toList)
        [⟨⟨0, 1⟩, .flowSequenceStart⟩, ⟨⟨1, 2⟩, .scalar .plain "a"⟩,
         ⟨⟨2, 3⟩, .flowEntry⟩, ⟨⟨4, 5⟩, .scalar .plain "b"⟩,
         ⟨⟨5, 6⟩, .flowSequenceEnd⟩]) = .error .panicked := by rfl

/-- Claim C3: a document whose top-level mapping key is none of the four
recognized types passes through both rewrite passes byte for byte: the
schema pass and the component removal pass both return the whole input as a
single borrowed fragment, which renders exactly as the input. -/
theorem c3_unrecognized_type_passthrough
    (yaml : List Char) (hne : yaml ≠ [])
    (sty : TScalarStyle) (t : String) (m1 m2 m3 m4 m5 : Marker)
    (rest : List Token) (fuel : Nat) (isRemoved : Int → Bool)
    (h1 : t ≠ "MonoBehaviour") (h2 : t ≠ "PrefabInstance")
    (h3 : t ≠ "RenderSettings") (h4 : t ≠ "GameObject") :
    filterYaml fuel yaml
        (⟨m1, .streamStart⟩ :: ⟨m2, .blockMappingStart⟩ :: ⟨m3, .key⟩ ::
          ⟨m4, .scalar sty t⟩ :: ⟨m5, .value⟩ :: rest)
      = .ok (.borrowed (.slice 0 yaml.length)) ∧
    componentsFilterYaml fuel isRemoved yaml
        (⟨m1, .streamStart⟩ :: ⟨m2, .blockMappingStart⟩ :: ⟨m3, .key⟩ ::
          ⟨m4, .scalar sty t⟩ :: ⟨m5, .value⟩ :: rest)
      = .ok (.borrowed (.slice 0 yaml.length)) ∧
    Cow.render yaml (.borrowed (.slice 0 yaml.length)) = yaml := by
  refine ⟨?_, ?_, by simp [Cow.render, Frag.render]⟩
  · unfold filterYaml
    simp [hne, nextT, nextScalar, peekT, Context.new, h1, h2, h3]
  · unfold componentsFilterYaml
    simp [nextT, nextScalar, peekT, Context.new, h4]

/-- Witness for claim C3 at a concrete Transform document. -/
theorem c3_witness :
    filterYaml 10 scenSText scenSTokens
        = .ok (.borrowed (.slice 0 scenSText.length)) ∧
    componentsFilterYaml 10 (fun _ => false) scenSText scenSTokens
        = .ok (.borrowed (.slice 0 scenSText.length)) ∧
    Cow.render scenSText (.borrowed (.slice 0 scenSText.length)) = scenSText := by
  have := c3_unrecognized_type_passthrough scenSText (by decide) .plain "Transform"
    ⟨0, 0⟩ ⟨0, 0⟩ ⟨0, 0⟩ ⟨0, 9⟩ ⟨9, 10⟩ [] 10 (fun _ => false)
    (by decide) (by decide) (by decide) (by decide)
  exact this

/-- Claim C6: should_omit returns true exactly in the listed cases and no
others; the elided-scalar sentinel of the specification is the YAML null
shorthand, the tilde string. -/
theorem c6_should_omit_characterization
    (p v : String) (r : ObjectReference) :
    shouldOmit p v r = true ↔
      ((p = "serializedProgramAsset" ∧ v = "~") ∨
       ((p = "fallbackStatus" ∨ p = "layerCollisionArr" ∨
          p = "completedSDKPipeline") ∧ r.isNull = true) ∨
       (strStartsWith p "DynamicMaterials.Array" = true ∨
        strStartsWith p "DynamicPrefabs.Array" = true ∨
        strStartsWith p "animationHashSet.Array" = true) ∨
       (strStartsWith p "baseAnimationLayers.Array.data[" = true ∧
        strEndsWith p "].mask" = true)) := by
  unfold shouldOmit
  have hor : ∀ (a b c d e f : Bool),
      (if a then true else if b then true else if c then true else
        if d then true else if e then true else if f then true else false)
        = (a || b || c || d || e || f) := by decide
  rw [hor]
  simp only [Bool.or_eq_true, Bool.and_eq_true, decide_eq_true_eq]
  generalize (p = "serializedProgramAsset") = A
  generalize (v = "~") = V
  generalize (p = "fallbackStatus") = B
  generalize (p = "layerCollisionArr") = C
  generalize (p = "completedSDKPipeline") = D
  generalize (r.isNull = true) = N
  generalize (strStartsWith p "DynamicMaterials.Array" = true) = S1
  generalize (strStartsWith p "DynamicPrefabs.Array" = true) = S2
  generalize (strStartsWith p "animationHashSet.Array" = true) = S3
  generalize (strStartsWith p "baseAnimationLayers.Array.data[" = true) = S4
  generalize (strEndsWith p "].mask" = true) = S5
  tauto

theorem yamlSeparatedList_concat (s : List Char) :
    ((yamlSeparatedList s).map (fun p => p.1 ++ p.2)).flatten = s := by
  by_cases h : s = []
  · subst h; rw [yamlSeparatedList]; simp
  · rw [yamlSeparatedList, dif_neg h]
    have ih := yamlSeparatedList_concat (yamlSeparatedNext s).2
    simp only [List.map_cons, List.flatten_cons, ih]
    rw [List.append_assoc]
    exact yamlSeparatedNext_append s
termination_by s.length
decreasing_by exact yamlSeparatedNext_rest_lt s h

/-- Claim C10: concatenating, in order, the heading then the body of every
pair produced by iterating YamlSeparated over a string reproduces the input
exactly; and the first pair carries an empty heading whenever the input does
not begin with the triple hyphen. -/
theorem c10_yaml_separated_roundtrip (s : List Char) :
    ((yamlSeparatedList s).map (fun p => p.1 ++ p.2)).flatten = s ∧
      (s ≠ [] → ('-' :: '-' :: '-' :: []).isPrefixOf s = false →
        (yamlSeparatedList s).head?.map Prod.fst = some []) := by
  refine ⟨yamlSeparatedList_concat s, fun hne hp => ?_⟩
  rw [yamlSeparatedList, dif_neg hne]
  simp [yamlSeparatedNext, hp]

/-- Witness for claim C10 at a concrete two document stream. -/
theorem c10_witness :
    ((yamlSeparatedList (("x\ny\n--- !u!1 &2\nz\n").toList)).map
        (fun p => p.1 ++ p.2)).flatten = ("x\ny\n--- !u!1 &2\nz\n").toList ∧
      (yamlSeparatedList (("x\ny\n--- !u!1 &2\nz\n").toList)).head?.map Prod.fst
        = some [] :=
  ⟨(c10_yaml_separated_roundtrip _).1,
    (c10_yaml_separated_roundtrip _).2 (by decide) (by decide)⟩

theorem findSub_cons_char (c a : Char) (rest : List Char) :
    findSub [c] (a :: rest)
      = if c = a then some 0 else (findSub [c] rest).map (· + 1) := by
  have hpf : ([c].isPrefixOf (a :: rest)) = (c == a) := by
    simp [List.isPrefixOf]
  rw [findSub, hpf]
  by_cases hca : c = a
  · rw [if_pos (by simp [hca]), if_pos hca]
  · rw [if_neg (by simp [hca]), if_neg hca]

theorem findSub_single_some {c : Char} :
    ∀ {s : List Char} {i : Nat},
      findSub [c] s = some i ↔
        ∃ pre post, s = pre ++ c :: post ∧ pre.length = i ∧ c ∉ pre := by
  intro s
  induction s with
  | nil =>
    intro i
    constructor
    · intro h; simp [findSub, List.isPrefixOf] at h
    · rintro ⟨pre, post, hsp, hl, hm⟩; cases pre <;> simp at hsp
  | cons a rest ih =>
    intro i
    rw [findSub_cons_char]
    by_cases hca : c = a
    · subst hca
      rw [if_pos rfl]
      constructor
      · intro h
        injection h with h0
        exact ⟨[], rest, rfl, h0, by simp⟩
      · rintro ⟨pre, post, hsp, hlen, hmem⟩
        cases pre with
        | nil => rw [← hlen]; rfl
        | cons p ps =>
          exfalso
          have hp : c = p := by
            have := congrArg (fun l => l.head?) hsp
            simpa using this
          exact hmem (by rw [hp]; exact List.mem_cons_self _ _)
    · rw [if_neg hca]
      constructor
      · intro h
        cases hf : findSub [c] rest with
        | none => rw [hf] at h; cases h
        | some j =>
          rw [hf] at h
          simp only [Option.map_some'] at h
          obtain ⟨pre, post, hsp, hlen, hmem⟩ := ih.mp hf
          injection h with hji
          refine ⟨a :: pre, post, by simp [hsp], by simp [hlen, ← hji], ?_⟩
          simp only [List.mem_cons, not_or]
          exact ⟨fun hc => hca hc, hmem⟩
      · rintro ⟨pre, post, hsp, hlen, hmem⟩
        cases pre with
        | nil =>
          exfalso
          have : a = c := by
            have := congrArg (fun l => l.head?) hsp
            simpa using this
          exact hca this.symm
        | cons p ps =>
          have hap : a = p ∧ rest = ps ++ c :: post := by
            constructor
            · have := congrArg (fun l => l.head?) hsp
              simpa using this
            · have := congrArg List.tail hsp
              simpa using this
          have hmem2 : c ∉ ps := fun hc => hmem (List.mem_cons_of_mem _ hc)
          rw [ih.mpr ⟨ps, post, hap.2, rfl, hmem2⟩]
          have hlen2 : ps.length + 1 = i := by simpa using hlen
          rw [← hlen2]
          rfl

theorem findSub_single_none {c : Char} {s : List Char} :
    findSub [c] s = none ↔ c ∉ s := by
  constructor
  · intro h hc
    induction s with
    | nil => simp at hc
    | cons a rest ih =>
      rw [findSub_cons_char] at h
      by_cases hca : c = a
      · rw [if_pos hca] at h; cases h
      · rw [if_neg hca] at h
        rcases List.mem_cons.mp hc with hc1 | hc2
        · exact hca hc1
        · cases hf : findSub [c] rest with
          | none => exact ih (by rw [hf]) hc2
          | some j => rw [hf] at h; cases h
  · intro hmem
    cases hf : findSub [c] s with
    | none => rfl
    | some i =>
      obtain ⟨pre, post, rfl, _, _⟩ := findSub_single_some.mp hf
      exact absurd (by simp : c ∈ pre ++ c :: post) hmem

theorem findIdxO_getD_eq (p : Char → Bool) (t : List Char) :
    (findIdxO p t).getD t.length = (t.takeWhile (fun c => !p c)).length := by
  induction t with
  | nil => rfl
  | cons c rest ih =>
    cases hp : p c with
    | true => simp [findIdxO, hp, List.takeWhile_cons]
    | false =>
      cases hf : findIdxO p rest with
      | none =>
        rw [hf] at ih
        simp [findIdxO, hp, hf, List.takeWhile_cons] at ih ⊢
        omega
      | some j =>
        rw [hf] at ih
        simp [findIdxO, hp, hf, List.takeWhile_cons] at ih ⊢
        omega

theorem take_takeWhile_length (p : Char → Bool) (t : List Char) :
    t.take (t.takeWhile p).length = t.takeWhile p := by
  nth_rewrite 2 [← List.takeWhile_append_dropWhile p t]
  rw [List.take_left]

theorem drop_takeWhile_length (p : Char → Bool) (t : List Char) :
    t.drop (t.takeWhile p).length = t.dropWhile p := by
  nth_rewrite 2 [← List.takeWhile_append_dropWhile p t]
  rw [List.drop_left]

theorem first_split_unique {c : Char} {pre post pre2 post2 : List Char}
    (h : pre ++ c :: post = pre2 ++ c :: post2) (m1 : c ∉ pre) (m2 : c ∉ pre2) :
    pre = pre2 ∧ post = post2 := by
  have e1 : findSub [c] (pre ++ c :: post) = some pre.length :=
    findSub_single_some.mpr ⟨pre, post, rfl, rfl, m1⟩
  have e2 : findSub [c] (pre ++ c :: post) = some pre2.length := by
    rw [h]; exact findSub_single_some.mpr ⟨pre2, post2, rfl, rfl, m2⟩
  have hlen : pre.length = pre2.length := by
    rw [e1] at e2; injection e2
  have hpre : pre = pre2 := by
    have := congrArg (fun l => l.take pre.length) h
    simp only at this
    rw [List.take_left, hlen, List.take_left] at this
    exact this
  refine ⟨hpre, ?_⟩
  subst hpre
  exact List.append_cancel_left h |> fun hx => by injection hx

/-- C9: parsing a heading line succeeds and yields a fileId and stripped flag exactly when the line starts with the four-character separator prefix, the trimmed remainder contains an ampersand, the maximal run of digit or minus characters after the first ampersand parses as a signed 64-bit integer, and the trimmed text after that run is either empty or the flag stripped followed by trimmed-empty text; every other input returns an error. -/
theorem c9_heading_line_parse_characterization (s : List Char) (fid : Int) (stripped : Bool) :
    parsedHeadingLineFromStr s = .ok ⟨fid, stripped⟩ ↔
      (('-' :: '-' :: '-' :: ' ' :: []).isPrefixOf s = true ∧
       ∃ pre post,
         trimStartL (s.drop 4) = pre ++ '&' :: post ∧ '&' ∉ pre ∧
         parseI64 (post.takeWhile (fun c => !notIdChar c)) = some fid ∧
         ((stripped = false ∧
             trimStartL (post.dropWhile (fun c => !notIdChar c)) = []) ∨
          (stripped = true ∧
             strippedChars.isPrefixOf
               (trimStartL (post.dropWhile (fun c => !notIdChar c))) = true ∧
             trimStartL
               ((trimStartL (post.dropWhile (fun c => !notIdChar c))).drop 8)
               = []))) := by
  cases hsep : (('-' :: '-' :: '-' :: ' ' :: []).isPrefixOf s) with
  | false =>
    rw [parsedHeadingLineFromStr, hsep]
    simp
  | true =>
    rw [parsedHeadingLineFromStr, hsep]
    simp only [Bool.not_true, if_false, true_and]
    cases hamp : findSub ['&'] (trimStartL (s.drop 4)) with
    | none =>
      simp only [hamp]
      constructor
      · intro h; cases h
      · rintro ⟨pre, post, hsp, hmem, _⟩
        exact absurd (by rw [hsp]; simp : '&' ∈ trimStartL (s.drop 4))
          (findSub_single_none.mp hamp)
    | some amp =>
      simp only [hamp]
      obtain ⟨pre0, post0, hs1, hlen0, hmem0⟩ := findSub_single_some.mp hamp
      subst hlen0
      have hdrop : (pre0 ++ '&' :: post0).drop (pre0.length + 1) = post0 := by
        rw [show pre0 ++ '&' :: post0 = (pre0 ++ ['&']) ++ post0 by simp]
        exact List.drop_left' (by simp)
      rw [hs1, hdrop, findIdxO_getD_eq, take_takeWhile_length,
        drop_takeWhile_length]
      rw [if_neg (by simp)]
      have hex : ∀ pre post, pre0 ++ '&' :: post0 = pre ++ '&' :: post →
          '&' ∉ pre → post = post0 := by
        intro pre post h hm
        exact (first_split_unique h hmem0 hm).2.symm
      cases hpi : parseI64 (post0.takeWhile (fun c => !notIdChar c)) with
      | none =>
        simp only [hpi]
        constructor
        · intro h; cases h
        · rintro ⟨pre, post, hsp, hm, hpi2, _⟩
          obtain rfl := hex pre post hsp hm
          rw [hpi] at hpi2
          cases hpi2
      | some fid0 =>
        simp only [hpi]
        by_cases hst : strippedChars.isPrefixOf
            (trimStartL (List.dropWhile (fun c => !notIdChar c) post0)) = true
        · simp only [if_pos hst]
          by_cases hrest : trimStartL
              ((trimStartL (List.dropWhile (fun c => !notIdChar c) post0)).drop 8)
              = []
          · rw [if_neg (by simp [hrest])]
            simp only [Except.ok.injEq, ParsedHeadingLine.mk.injEq]
            constructor
            · rintro ⟨h1, h2⟩
              exact ⟨pre0, post0, rfl, hmem0,
                by rw [← h1]; exact hpi, Or.inr ⟨h2.symm, hst, hrest⟩⟩
            · rintro ⟨pre, post, hsp, hm, hpi2, hdisj⟩
              obtain rfl := hex pre post hsp hm
              have hfid : fid0 = fid := by
                rw [hpi] at hpi2; injection hpi2
              rcases hdisj with ⟨hs0, htl⟩ | ⟨hs1t, _, _⟩
              · rw [htl] at hst
                simp [strippedChars, List.isPrefixOf] at hst
              · exact ⟨hfid, hs1t.symm⟩
          · rw [if_pos hrest]
            constructor
            · intro h; cases h
            · rintro ⟨pre, post, hsp, hm, hpi2, hdisj⟩
              obtain rfl := hex pre post hsp hm
              rcases hdisj with ⟨hs0, htl⟩ | ⟨hs1t, _, hr2⟩
              · rw [htl] at hst
                simp [strippedChars, List.isPrefixOf] at hst
              · exact (hrest hr2).elim
        · simp only [if_neg hst]
          by_cases htail : trimStartL (List.dropWhile (fun c => !notIdChar c) post0)
              = []
          · rw [if_neg (by simp [htail])]
            simp only [Except.ok.injEq, ParsedHeadingLine.mk.injEq]
            constructor
            · rintro ⟨h1, h2⟩
              exact ⟨pre0, post0, rfl, hmem0,
                by rw [← h1]; exact hpi, Or.inl ⟨h2.symm, htail⟩⟩
            · rintro ⟨pre, post, hsp, hm, hpi2, hdisj⟩
              obtain rfl := hex pre post hsp hm
              have hfid : fid0 = fid := by
                rw [hpi] at hpi2; injection hpi2
              rcases hdisj with ⟨hs0, htl⟩ | ⟨hs1t, hpf, _⟩
              · exact ⟨hfid, hs0.symm⟩
              · exact (hst hpf).elim
          · rw [if_pos htail]
            constructor
            · intro h; cases h
            · rintro ⟨pre, post, hsp, hm, hpi2, hdisj⟩
              obtain rfl := hex pre post hsp hm
              rcases hdisj with ⟨hs0, htl⟩ | ⟨hs1t, hpf, _⟩
              · exact (htail htl).elim
              · exact (hst hpf).elim

set_option maxRecDepth 100000 in
set_option maxHeartbeats 1000000 in
/-- C8 counterexample: in the three document pipeline where the first
m_Component entry of the GameObject points at the dropped document 300, the
rewritten GameObject body is not the document with the bytes of that entry
deleted and everything else unchanged; the closing brace of the dropped flow
mapping survives after the m_Component key. -/
theorem c8_counterexample_first_entry_drop :
    fullPipeline 300 scenTokenize [secS, secA, secH]
      = .ok [⟨[], ⟨100, true⟩, []⟩, ⟨[], ⟨300, false⟩, []⟩,
          ⟨[], ⟨200, false⟩,
            ("GameObject:\n  serializedVersion: 6\n  m_Component:\x7d\n  - component: \x7bfileID: 50\x7d\n  m_Name: Text\n").toList⟩] ∧
    scenHText
      = ("GameObject:\n  serializedVersion: 6\n  m_Component:\n").toList
        ++ ("  - component: \x7bfileID: 300\x7d\n").toList
        ++ ("  - component: \x7bfileID: 50\x7d\n  m_Name: Text\n").toList ∧
    ("GameObject:\n  serializedVersion: 6\n  m_Component:\x7d\n  - component: \x7bfileID: 50\x7d\n  m_Name: Text\n").toList
      ≠ ("GameObject:\n  serializedVersion: 6\n  m_Component:\n").toList
        ++ ("  - component: \x7bfileID: 50\x7d\n  m_Name: Text\n").toList := by
  refine ⟨?_, ?_, ?_⟩
  · rfl
  · rfl
  · decide

set_option maxRecDepth 100000 in
set_option maxHeartbeats 1000000 in
/-- C8: amended statement. The removed set holds exactly the file ids of
sections whose filtered body is empty; a dropped m_Component entry has its
bytes removed from the trimmed end of the previously written output to the
trimmed end of its fileID scalar, so a dropped non first entry disappears
byte for byte while a dropped first entry leaves the closing brace of its
flow mapping behind the m_Component key. -/
theorem c8_amended_removal_boundaries :
    (∀ sections id, removedSet sections id = true ↔
        ∃ s, s ∈ sections ∧ s.filtered = [] ∧ s.parsed.fileId = id) ∧
    fullPipeline 300 scenTokenize [secS, secA, secG]
      = .ok [⟨[], ⟨100, true⟩, []⟩, ⟨[], ⟨300, false⟩, []⟩,
          ⟨[], ⟨200, false⟩,
            ("GameObject:\n  serializedVersion: 6\n  m_Component:\n  - component: \x7bfileID: 50\x7d\n").toList
              ++ ("  m_Name: Text\n").toList⟩] ∧
    scenGText
      = ("GameObject:\n  serializedVersion: 6\n  m_Component:\n  - component: \x7bfileID: 50\x7d\n").toList
        ++ ("  - component: \x7bfileID: 300\x7d\n").toList
        ++ ("  m_Name: Text\n").toList ∧
    fullPipeline 300 scenTokenize [secS, secA, secH]
      = .ok [⟨[], ⟨100, true⟩, []⟩, ⟨[], ⟨300, false⟩, []⟩,
          ⟨[], ⟨200, false⟩,
            ("GameObject:\n  serializedVersion: 6\n  m_Component:").toList
              ++ ("\x7d\n  - component: \x7bfileID: 50\x7d\n  m_Name: Text\n").toList⟩] ∧
    scenHText
      = ("GameObject:\n  serializedVersion: 6\n  m_Component:").toList
        ++ ("\n  - component: \x7bfileID: 300").toList
        ++ ("\x7d\n  - component: \x7bfileID: 50\x7d\n  m_Name: Text\n").toList := by
  refine ⟨?_, ?_, ?_, ?_, ?_⟩
  · intro sections id
    simp [removedSet, List.any_eq_true, List.isEmpty_iff, and_assoc]
  · rfl
  · rfl
  · rfl
  · rfl

/-- A continuing visitor result never breaks: contOf only returns cont. -/
theorem contOf_ok_cont {σ R : Type} (st : σ) (mc : Except ParserErr Context)
    (out : Flow R × σ × Context) (h : contOf st mc = .ok out) :
    out.1 = Flow.cont := by
  cases mc with
  | error e => cases h
  | ok c =>
    injection h with h2
    rw [← h2]

/-- A block mapping loop with default false returns true only when some
visitor call broke with true. -/
theorem mappingLoopBlockSt_true_break {σ : Type}
    (block : σ → Context → Except ParserErr (Flow Bool × σ × Context)) :
    ∀ (fuel : Nat) (st : σ) (ctx : Context) (st2 : σ) (c2 : Context),
      mappingLoopBlockSt false block fuel st ctx = .ok (true, st2, c2) →
      ∃ st1 c1, block st1 c1 = .ok (Flow.brk true, st2, c2) := by
  intro fuel
  induction fuel with
  | zero => intro st ctx st2 c2 h; cases h
  | succ n ih =>
    intro st ctx st2 c2 h
    rw [mappingLoopBlockSt] at h
    cases hn : nextT ctx with
    | error e => rw [hn] at h; cases h
    | ok p =>
      obtain ⟨t, c⟩ := p
      rw [hn] at h
      simp only [] at h
      cases t
      case key =>
        cases hb : block st c with
        | error e => rw [hb] at h; cases h
        | ok q =>
          obtain ⟨f, st3, c3⟩ := q
          rw [hb] at h
          cases f with
          | brk r =>
            simp only [] at h
            injection h with h1
            injection h1 with hr h2
            injection h2 with hst hc
            subst hr; subst hst; subst hc
            exact ⟨st, c, hb⟩
          | cont =>
            simp only [] at h
            exact ih st3 c3 st2 c2 h
      case blockEnd =>
        simp only [] at h
        injection h with h1
        injection h1 with hr h2
        cases hr
      all_goals (simp only [] at h; cases h)

/-- A flow mapping loop with default false returns true only when some
visitor call broke with true. -/
theorem mappingLoopFlowSt_true_break {σ : Type}
    (block : σ → Context → Except ParserErr (Flow Bool × σ × Context)) :
    ∀ (fuel : Nat) (st : σ) (ctx : Context) (st2 : σ) (c2 : Context),
      mappingLoopFlowSt false block fuel st ctx = .ok (true, st2, c2) →
      ∃ st1 c1, block st1 c1 = .ok (Flow.brk true, st2, c2) := by
  intro fuel
  induction fuel with
  | zero => intro st ctx st2 c2 h; cases h
  | succ n ih =>
    intro st ctx st2 c2 h
    rw [mappingLoopFlowSt] at h
    cases hn : nextT ctx with
    | error e => rw [hn] at h; cases h
    | ok p =>
      obtain ⟨t, c⟩ := p
      rw [hn] at h
      simp only [] at h
      cases t
      case key =>
        cases hb : block st c with
        | error e => rw [hb] at h; cases h
        | ok q =>
          obtain ⟨f, st3, c3⟩ := q
          rw [hb] at h
          cases f with
          | brk r =>
            try simp only [] at h
            injection h with h1
            injection h1 with hr h2
            injection h2 with hst hc
            subst hr; subst hst; subst hc
            exact ⟨st, c, hb⟩
          | cont =>
            try simp only [] at h
            cases hn2 : nextT c3 with
            | error e => rw [hn2] at h; cases h
            | ok p2 =>
              obtain ⟨t2, c4⟩ := p2
              rw [hn2] at h
              try simp only [] at h
              cases t2
              case flowEntry => exact ih st3 c4 st2 c2 h
              case flowMappingEnd =>
                injection h with h1
                injection h1 with hr h2
                cases hr
              all_goals cases h
      case flowMappingEnd =>
        simp only [] at h
        injection h with h1
        injection h1 with hr h2
        cases hr
      all_goals (simp only [] at h; cases h)

/-- Context.mapping with default false returns true only when some visitor
call broke with true. -/
theorem mappingSt_true_break {σ : Type}
    (block : σ → Context → Except ParserErr (Flow Bool × σ × Context))
    (fuel : Nat) (st : σ) (ctx : Context) (st2 : σ) (c2 : Context)
    (h : mappingSt false fuel block st ctx = .ok (true, st2, c2)) :
    ∃ st1 c1, block st1 c1 = .ok (Flow.brk true, st2, c2) := by
  rw [mappingSt] at h
  cases hn : nextT ctx with
  | error e => rw [hn] at h; cases h
  | ok p =>
    obtain ⟨t, c⟩ := p
    rw [hn] at h
    simp only [] at h
    cases t
    case blockMappingStart => exact mappingLoopBlockSt_true_break block fuel st c st2 c2 h
    case flowMappingStart => exact mappingLoopFlowSt_true_break block fuel st c st2 c2 h
    all_goals cases h

set_option maxRecDepth 100000 in
set_option maxHeartbeats 1000000 in
/-- C5: the m_Script branch of the MonoBehaviour visitor breaks with true
exactly when the parsed reference equals the pipeline saver sentinel; every
other key continues; the mapping driver reports true only from such a
break; filter_yaml empties a MonoBehaviour document exactly on a true
report; and the concrete sentinel document is emptied. -/
theorem c5_sentinel_script_removal :
    (∀ (fuel : Nat) (st : Unit) (ctx : Context) (name : String)
        (sty : TScalarStyle) (ctx1 ctx2 : Context),
        nextScalar ctx = .ok ((name, sty), ctx1) →
        nextT ctx1 = .ok (.value, ctx2) →
        name = "m_Script" →
        ∀ (r2 : ObjectReference) (ctx3 : Context),
          parseObjectReference fuel ctx2 = .ok (r2, ctx3) →
          mbBlock fuel st ctx
            = .ok (if r2 = pipelineSaverReference then (Flow.brk true, st, ctx3)
                else (Flow.cont, st, ctx3))) ∧
    (∀ (fuel : Nat) (st : Unit) (ctx : Context) (name : String)
        (sty : TScalarStyle) (ctx1 : Context)
        (out : Flow Bool × Unit × Context),
        nextScalar ctx = .ok ((name, sty), ctx1) →
        name ≠ "m_Script" →
        mbBlock fuel st ctx = .ok out → out.1 = Flow.cont) ∧
    (∀ (fuel : Nat) (ctx c2 : Context),
        monoBehaviour fuel ctx = .ok (true, c2) →
        ∃ st1 c1, mbBlock fuel st1 c1 = .ok (Flow.brk true, (), c2)) ∧
    (∀ (fuel : Nat) (yaml : List Char) (tokens : List Token)
        (c1 c2 c3 : Context) (s : String) (sty : TScalarStyle)
        (c4 c5 : Context) (omitDoc : Bool) (c6 : Context),
        yaml ≠ [] →
        nextT (Context.new yaml tokens) = .ok (.streamStart, c1) →
        nextT c1 = .ok (.blockMappingStart, c2) →
        nextT c2 = .ok (.key, c3) →
        nextScalar c3 = .ok ((s, sty), c4) →
        s = "MonoBehaviour" →
        nextT c4 = .ok (.value, c5) →
        monoBehaviour fuel c5 = .ok (omitDoc, c6) →
        filterYaml fuel yaml tokens
          = if omitDoc then .ok emptyCow else closingsAndFinish c6) ∧
    filterYaml 300 scenAText scenATokens = .ok emptyCow := by
  refine ⟨?_, ?_, ?_, ?_, ?_⟩
  · intro fuel st ctx name sty ctx1 ctx2 hns hv hname r2 ctx3 hpo
    subst hname
    rw [mbBlock, hns]
    simp only []
    rw [hv]
    simp only []
    rw [if_neg (by decide), if_pos trivial, hpo]
    simp only []
    by_cases hr : r2 = pipelineSaverReference
    · rw [if_pos hr, if_pos hr]
    · rw [if_neg hr, if_neg hr]
  · intro fuel st ctx name sty ctx1 out hns hname h
    rw [mbBlock, hns] at h
    try simp only [] at h
    cases hv : nextT ctx1 with
    | error e => rw [hv] at h; cases h
    | ok p =>
      obtain ⟨t, c⟩ := p
      rw [hv] at h
      try simp only [] at h
      cases t
      case value =>
        split_ifs at h <;> exact contOf_ok_cont st _ out h
      all_goals cases h
  · intro fuel ctx c2 h
    rw [monoBehaviour] at h
    cases hm : mappingSt false fuel (mbBlock fuel) () ctx with
    | error e => rw [hm] at h; cases h
    | ok q =>
      obtain ⟨b, u, c⟩ := q
      rw [hm] at h
      simp only [] at h
      injection h with h1
      injection h1 with hb hc
      obtain ⟨⟩ := u
      rw [hb, hc] at hm
      exact mappingSt_true_break (mbBlock fuel) fuel () ctx () c2 hm
  · intro fuel yaml tokens c1 c2 c3 s sty c4 c5 omitDoc c6
      hy h1 h2 h3 hs hsname hv hmb
    subst hsname
    rw [filterYaml, if_neg hy, h1]
    simp only []
    rw [h2]
    simp only []
    rw [h3]
    simp only []
    rw [hs]
    simp only []
    rw [hv]
    simp only []
    rw [if_pos trivial, hmb]
  · rfl

set_option maxRecDepth 100000 in
set_option maxHeartbeats 1000000 in
/-- Witness for C5: at the concrete sentinel document the m_Script visitor
branch breaks with true. -/
theorem c5_witness :
    mbBlock 300 () scenAHdr
      = .ok (if (poRes 300 (stepTok (stepScal scenAHdr))).1 = pipelineSaverReference
          then (Flow.brk true, (), (poRes 300 (stepTok (stepScal scenAHdr))).2)
          else (Flow.cont, (), (poRes 300 (stepTok (stepScal scenAHdr))).2)) :=
  c5_sentinel_script_removal.1 300 () scenAHdr "m_Script" TScalarStyle.plain
    (stepScal scenAHdr) (stepTok (stepScal scenAHdr)) rfl rfl rfl
    (poRes 300 (stepTok (stepScal scenAHdr))).1
    (poRes 300 (stepTok (stepScal scenAHdr))).2 rfl

theorem peekT_of_tokens {ctx : Context} {t : Token} {rest : List Token}
    (h : ctx.tokens = t :: rest) : peekT ctx = .ok t.tok := by
  rw [peekT, h]

theorem nextT_of_tokens {ctx : Context} {t : Token} {rest : List Token}
    (h : ctx.tokens = t :: rest) : nextT ctx = .ok (t.tok, consumeTok ctx) := by
  rw [nextT, h, consumeTok, h]

theorem consumeTok_tokens {ctx : Context} {t : Token} {rest : List Token}
    (h : ctx.tokens = t :: rest) : (consumeTok ctx).tokens = rest := by
  rw [consumeTok, h]

theorem consumeN_add (a b : Nat) (ctx : Context) :
    consumeN (a + b) ctx = consumeN b (consumeN a ctx) := by
  induction a generalizing ctx with
  | zero => rw [Nat.zero_add]; rfl
  | succ n ih =>
    rw [show n + 1 + b = (n + b) + 1 by omega]
    rw [consumeN, consumeN, ih]

theorem consumeN_tokens : ∀ (n : Nat) (ctx : Context),
    (consumeN n ctx).tokens = ctx.tokens.drop n := by
  intro n
  induction n with
  | zero => intro ctx; rfl
  | succ k ih =>
    intro ctx
    rw [consumeN, ih]
    cases h : ctx.tokens with
    | nil => rw [consumeTok, h]; simp [h]
    | cons t rest => rw [consumeTok, h]; simp [h]

theorem consumeTok_eq_one (c : Context) : consumeTok c = consumeN 1 c := rfl

/-- The first token of a non elided value shape is never a flow entry. -/
theorem tokensOf_head_not_sep (m : Marker) (t : VT) (hne : t ≠ VT.elided) :
    ∃ tk tl, tokensOf m t = tk :: tl ∧ tk.tok ≠ TokenType.flowEntry := by
  cases t with
  | scalar sty s => exact ⟨_, _, rfl, by simp⟩
  | elided => exact absurd rfl hne
  | emptyFlowSeq => exact ⟨_, _, rfl, by simp⟩
  | blockMap body => exact ⟨_, _, rfl, by simp⟩
  | flowMap body => exact ⟨_, _, rfl, by simp⟩
  | blockSeq first rest => exact ⟨_, _, rfl, by simp⟩

/-- A solid shape imposes no condition on its following tokens. -/
theorem topSolid_followOkFor {t : VT} (h : topSolid t = true)
    (rest : List Token) : followOkFor t rest := by
  cases t <;> trivial

/-- A value token followed by anything satisfies every follow condition. -/
theorem followOkFor_value (t : VT) (m2 : Marker) (tl : List Token) :
    followOkFor t (⟨m2, TokenType.value⟩ :: tl) := by
  cases t <;> first | trivial | exact ⟨_, _, rfl, by simp⟩

/-- A structural token (key, blockEnd or flowMappingEnd) at the head of the
following tokens satisfies every follow condition. -/
theorem followOkFor_structural (t : VT) {tk : Token} {tl : List Token}
    (l : List Token) (hl : l = tk :: tl)
    (hk : tk.tok = TokenType.key ∨ tk.tok = TokenType.blockEnd ∨
      tk.tok = TokenType.flowMappingEnd) :
    followOkFor t l := by
  cases t <;> try trivial
  · exact ⟨tk, tl, hl, by
      rcases hk with h | h | h
      · exact Or.inr (Or.inr (Or.inl h))
      · exact Or.inl h
      · exact Or.inr (Or.inl h)⟩
  · exact ⟨tk, tl, hl, by rcases hk with h | h | h <;> simp [h]⟩

/-- A non elided value imposes no condition beyond its head token not being
a block entry. -/
theorem followOkFor_not_elided (t : VT) (hne : t ≠ VT.elided) {tk : Token}
    {tl : List Token} (l : List Token) (hl : l = tk :: tl)
    (hk : tk.tok ≠ TokenType.blockEntry) : followOkFor t l := by
  cases t <;> first | trivial | exact absurd rfl hne | exact ⟨tk, tl, hl, hk⟩

/-- The head of a block mapping body is a key or the closing block end. -/
theorem tokensOfB_head (m : Marker) (rb : BPairs) :
    ∃ tk tl, tokensOfB m rb = tk :: tl ∧
      (tk.tok = TokenType.key ∨ tk.tok = TokenType.blockEnd) := by
  cases rb <;> exact ⟨_, _, rfl, by simp⟩

/-- The skip visitor of a mapping pair when the value is not elided inside a
flow mapping: skip the key, consume the value indicator, skip the value. -/
theorem skipMapBlock_skip (skipv : Context → Except ParserErr Context)
    (c c1 c2 c3 : Context)
    (h1 : skipv c = .ok c1) (h2 : nextT c1 = .ok (.value, c2))
    (hne : peekT c2 ≠ .ok TokenType.flowEntry) (h3 : skipv c2 = .ok c3) :
    skipMapBlock skipv () c = .ok (Flow.cont, (), c3) := by
  rw [skipMapBlock, h1]
  simp only []
  rw [h2]
  simp only []
  cases hp : peekT c2 with
  | error e => rw [h3]
  | ok tt =>
    cases tt
    case flowEntry => exact absurd hp hne
    all_goals rw [h3]

/-- The skip visitor of a mapping pair when the lookahead after the value
indicator is a flow entry: the value is elided and nothing more is
consumed. -/
theorem skipMapBlock_elide (skipv : Context → Except ParserErr Context)
    (c c1 c2 : Context)
    (h1 : skipv c = .ok c1) (h2 : nextT c1 = .ok (.value, c2))
    (hfe : peekT c2 = .ok TokenType.flowEntry) :
    skipMapBlock skipv () c = .ok (Flow.cont, (), c2) := by
  rw [skipMapBlock, h1]
  simp only []
  rw [h2]
  simp only []
  rw [hfe]

mutual

/-- skip_next_value consumes exactly the tokens of every well formed value
shape and returns Ok, given fuel beyond the token count. -/
theorem skipOkV (m : Marker) (t : VT) (hok : okTree t = true)
    (fuel : Nat) (hftl : (tokensOf m t).length + 1 ≤ fuel)
    (ctx : Context) (rest : List Token)
    (htoks : ctx.tokens = tokensOf m t ++ rest)
    (hfol : followOkFor t rest) :
    skipNextValue fuel ctx = .ok (consumeN (tokensOf m t).length ctx) := by
  obtain ⟨f, rfl⟩ : ∃ f, fuel = f + 1 := ⟨fuel - 1, by omega⟩
  cases t with
  | scalar sty s =>
    simp only [tokensOf, List.cons_append, List.nil_append] at htoks
    rw [skipNextValue, peekT_of_tokens htoks]
    simp only []
    rw [nextT_of_tokens htoks]
    rfl
  | elided =>
    obtain ⟨tk, tl, hr, hkind⟩ := hfol
    subst hr
    simp only [tokensOf, List.nil_append] at htoks
    rw [skipNextValue, peekT_of_tokens htoks]
    rcases hkind with h | h | h | h <;> rw [h] <;> rfl
  | emptyFlowSeq =>
    simp only [tokensOf, List.cons_append, List.nil_append] at htoks
    have h2 : (consumeTok ctx).tokens = ⟨m, .flowSequenceEnd⟩ :: rest :=
      consumeTok_tokens htoks
    rw [skipNextValue, peekT_of_tokens htoks]
    simp only []
    rw [nextT_of_tokens htoks]
    simp only []
    rw [nextT_of_tokens h2]
    rfl
  | blockMap body =>
    rw [okTree] at hok
    simp only [tokensOf, List.cons_append, List.length_cons] at htoks hftl ⊢
    have h1 : (consumeTok ctx).tokens = tokensOfB m body ++ rest :=
      consumeTok_tokens htoks
    rw [skipNextValue, peekT_of_tokens htoks]
    simp only []
    rw [mappingSt, nextT_of_tokens htoks]
    simp only []
    rw [skipOkB m body hok f f (by omega) (by omega) (consumeTok ctx) rest h1]
    rw [consumeN]
  | flowMap body =>
    rw [okTree] at hok
    simp only [tokensOf, List.cons_append, List.length_cons] at htoks hftl ⊢
    have h1 : (consumeTok ctx).tokens = tokensOfF m body ++ rest :=
      consumeTok_tokens htoks
    rw [skipNextValue, peekT_of_tokens htoks]
    simp only []
    rw [mappingSt, nextT_of_tokens htoks]
    simp only []
    rw [skipOkF m body hok f f (by omega) (by omega) (consumeTok ctx) rest h1]
    rw [consumeN]
  | blockSeq first irest =>
    obtain ⟨tk, tl, hr, hkind⟩ := hfol
    have hitems : okI (BItems.cons first irest) = true := by
      rw [okI]; rw [okTree] at hok; exact hok
    have heq : tokensOf m (VT.blockSeq first irest)
        = tokensOfI m (BItems.cons first irest) := by
      rw [tokensOf, tokensOfI]
    rw [heq] at htoks hftl ⊢
    obtain ⟨tk0, tl0, hhead⟩ : ∃ tk0 tl0,
        tokensOfI m (BItems.cons first irest) = tk0 :: tl0 ∧
          tk0.tok = TokenType.blockEntry := ⟨_, _, by rw [tokensOfI], rfl⟩
    have htoks2 : ctx.tokens = tk0 :: (tl0 ++ rest) := by
      rw [htoks, hhead.1]; simp
    rw [skipNextValue, peekT_of_tokens htoks2, hhead.2]
    simp only []
    exact skipOkE m (BItems.cons first irest) hitems (f + 1) f
      (by omega) (by omega) ctx rest tk tl htoks hr hkind
termination_by 2 * sizeOf t + 1

/-- The block mapping loop of skip_next_value consumes a well formed block
mapping body. -/
theorem skipOkB (m : Marker) (body : BPairs) (hok : okB body = true)
    (loopFuel skipFuel : Nat)
    (hlf : (tokensOfB m body).length ≤ loopFuel)
    (hsf : (tokensOfB m body).length ≤ skipFuel)
    (ctx : Context) (rest : List Token)
    (htoks : ctx.tokens = tokensOfB m body ++ rest) :
    mappingLoopBlockSt () (skipMapBlock (skipNextValue skipFuel)) loopFuel () ctx
      = .ok ((), (), consumeN (tokensOfB m body).length ctx) := by
  cases body with
  | nil =>
    obtain ⟨lf, rfl⟩ : ∃ lf, loopFuel = lf + 1 := ⟨loopFuel - 1, by
      simp only [tokensOfB, List.length_cons, List.length_nil] at hlf
      omega⟩
    simp only [tokensOfB, List.cons_append, List.nil_append] at htoks
    rw [mappingLoopBlockSt, nextT_of_tokens htoks]
    rfl
  | cons k v rb =>
    obtain ⟨lf, rfl⟩ : ∃ lf, loopFuel = lf + 1 := ⟨loopFuel - 1, by
      simp only [tokensOfB, List.length_cons] at hlf
      omega⟩
    rw [okB] at hok
    simp only [Bool.and_eq_true] at hok
    obtain ⟨⟨hk, hv⟩, hrb⟩ := hok
    simp only [tokensOfB, List.cons_append, List.append_assoc] at htoks
    simp only [tokensOfB, List.length_cons, List.length_append] at hlf hsf
    -- consume the key token
    have h1 : (consumeTok ctx).tokens
        = tokensOf m k ++ (⟨m, TokenType.value⟩ ::
            (tokensOf m v ++ (tokensOfB m rb ++ rest))) := by
      rw [consumeTok_tokens htoks]
    -- skip the key value
    have hkskip := skipOkV m k hk skipFuel (by omega) (consumeTok ctx) _
      h1 (followOkFor_value k m (tokensOf m v ++ (tokensOfB m rb ++ rest)))
    -- the value indicator
    have h2 : (consumeN (tokensOf m k).length (consumeTok ctx)).tokens
        = ⟨m, TokenType.value⟩ :: (tokensOf m v ++ (tokensOfB m rb ++ rest)) := by
      rw [consumeN_tokens, h1, List.drop_left]
    -- skip the value
    obtain ⟨tkb, tlb, hbh, hbk⟩ := tokensOfB_head m rb
    have h3 : (consumeTok (consumeN (tokensOf m k).length (consumeTok ctx))).tokens
        = tokensOf m v ++ (tokensOfB m rb ++ rest) :=
      consumeTok_tokens h2
    have hl2 : tokensOfB m rb ++ rest = tkb :: (tlb ++ rest) := by
      rw [hbh]; simp
    have hfolv : followOkFor v (tokensOfB m rb ++ rest) := by
      refine followOkFor_structural v _ hl2 ?_
      rcases hbk with h | h
      · exact Or.inl h
      · exact Or.inr (Or.inl h)
    have hvskip := skipOkV m v hv skipFuel (by omega)
      (consumeTok (consumeN (tokensOf m k).length (consumeTok ctx))) _
      h3 hfolv
    have hne : peekT (consumeTok (consumeN (tokensOf m k).length (consumeTok ctx)))
        ≠ .ok TokenType.flowEntry := by
      by_cases hel : v = VT.elided
      · subst hel
        have : (consumeTok (consumeN (tokensOf m k).length
            (consumeTok ctx))).tokens = tkb :: (tlb ++ rest) := by
          rw [h3]; rw [tokensOf, hbh]; simp
        rw [peekT_of_tokens this]
        intro hcon
        injection hcon with hcon2
        rcases hbk with h | h <;> rw [h] at hcon2 <;> cases hcon2
      · obtain ⟨tk0, tl0, hh0, hne0⟩ := tokensOf_head_not_sep m v hel
        have : (consumeTok (consumeN (tokensOf m k).length
            (consumeTok ctx))).tokens = tk0 :: (tl0 ++ (tokensOfB m rb ++ rest)) := by
          rw [h3, hh0]; simp
        rw [peekT_of_tokens this]
        intro hcon
        injection hcon with hcon2
        exact hne0 hcon2
    have hblock := skipMapBlock_skip (skipNextValue skipFuel) (consumeTok ctx)
      (consumeN (tokensOf m k).length (consumeTok ctx))
      (consumeTok (consumeN (tokensOf m k).length (consumeTok ctx)))
      (consumeN (tokensOf m v).length
        (consumeTok (consumeN (tokensOf m k).length (consumeTok ctx))))
      hkskip (nextT_of_tokens h2) hne hvskip
    have h4 : (consumeN (tokensOf m v).length
        (consumeTok (consumeN (tokensOf m k).length (consumeTok ctx)))).tokens
        = tokensOfB m rb ++ rest := by
      rw [consumeN_tokens, h3, List.drop_left]
    have hrec := skipOkB m rb hrb lf skipFuel (by omega) (by omega) _ rest h4
    rw [mappingLoopBlockSt, nextT_of_tokens htoks]
    simp only []
    rw [hblock]
    simp only []
    rw [hrec]
    simp only [consumeTok_eq_one, ← consumeN_add]
    congr 3
    · congr 1
      simp only [tokensOfB, List.length_cons, List.length_append]
      omega
termination_by 2 * sizeOf body

/-- The flow mapping loop of skip_next_value consumes a well formed flow
mapping body. -/
theorem skipOkF (m : Marker) (body : FPairs) (hok : okF body = true)
    (loopFuel skipFuel : Nat)
    (hlf : (tokensOfF m body).length ≤ loopFuel)
    (hsf : (tokensOfF m body).length ≤ skipFuel)
    (ctx : Context) (rest : List Token)
    (htoks : ctx.tokens = tokensOfF m body ++ rest) :
    mappingLoopFlowSt () (skipMapBlock (skipNextValue skipFuel)) loopFuel () ctx
      = .ok ((), (), consumeN (tokensOfF m body).length ctx) := by
  cases body with
  | nil =>
    obtain ⟨lf, rfl⟩ : ∃ lf, loopFuel = lf + 1 := ⟨loopFuel - 1, by
      simp only [tokensOfF, List.length_cons, List.length_nil] at hlf
      omega⟩
    simp only [tokensOfF, List.cons_append, List.nil_append] at htoks
    rw [mappingLoopFlowSt, nextT_of_tokens htoks]
    rfl
  | cons k v rf =>
    obtain ⟨lf, rfl⟩ : ∃ lf, loopFuel = lf + 1 := ⟨loopFuel - 1, by
      simp only [tokensOfF, List.length_cons] at hlf
      omega⟩
    rw [okF] at hok
    simp only [Bool.and_eq_true] at hok
    obtain ⟨⟨hk, hv⟩, hrf⟩ := hok
    simp only [tokensOfF, List.cons_append, List.append_assoc] at htoks
    simp only [tokensOfF, List.length_cons, List.length_append] at hlf hsf
    have h1 : (consumeTok ctx).tokens
        = tokensOf m k ++ (⟨m, TokenType.value⟩ ::
            (tokensOf m v ++ (sepF m rf ++ (tokensOfF m rf ++ rest)))) := by
      rw [consumeTok_tokens htoks]
    have hkskip := skipOkV m k hk skipFuel (by omega) (consumeTok ctx) _
      h1 (followOkFor_value k m
        (tokensOf m v ++ (sepF m rf ++ (tokensOfF m rf ++ rest))))
    have h2 : (consumeN (tokensOf m k).length (consumeTok ctx)).tokens
        = ⟨m, TokenType.value⟩ ::
            (tokensOf m v ++ (sepF m rf ++ (tokensOfF m rf ++ rest))) := by
      rw [consumeN_tokens, h1, List.drop_left]
    have h3 : (consumeTok (consumeN (tokensOf m k).length (consumeTok ctx))).tokens
        = tokensOf m v ++ (sepF m rf ++ (tokensOfF m rf ++ rest)) :=
      consumeTok_tokens h2
    cases rf with
    | nil =>
      -- last pair: no separator, FlowMappingEnd follows the value
      have h3n : (consumeTok (consumeN (tokensOf m k).length
          (consumeTok ctx))).tokens
          = tokensOf m v ++ (⟨m, TokenType.flowMappingEnd⟩ :: rest) := by
        rw [h3]; rw [sepF, tokensOfF]; simp
      have hfolv : followOkFor v (⟨m, TokenType.flowMappingEnd⟩ :: rest) :=
        followOkFor_structural v _ rfl (Or.inr (Or.inr rfl))
      have hvskip := skipOkV m v hv skipFuel (by
          simp only [tokensOfF, List.length_cons, List.length_nil] at hsf
          omega)
        (consumeTok (consumeN (tokensOf m k).length (consumeTok ctx))) _
        h3n hfolv
      have hne : peekT (consumeTok (consumeN (tokensOf m k).length
          (consumeTok ctx))) ≠ .ok TokenType.flowEntry := by
        by_cases hel : v = VT.elided
        · subst hel
          have : (consumeTok (consumeN (tokensOf m k).length
              (consumeTok ctx))).tokens
              = (⟨m, TokenType.flowMappingEnd⟩ : Token) :: rest := by
            rw [h3n]; rw [tokensOf]; simp
          rw [peekT_of_tokens this]
          intro hcon
          injection hcon with hcon2
          cases hcon2
        · obtain ⟨tk0, tl0, hh0, hne0⟩ := tokensOf_head_not_sep m v hel
          have : (consumeTok (consumeN (tokensOf m k).length
              (consumeTok ctx))).tokens
              = tk0 :: (tl0 ++ (⟨m, TokenType.flowMappingEnd⟩ :: rest)) := by
            rw [h3n, hh0]; simp
          rw [peekT_of_tokens this]
          intro hcon
          injection hcon with hcon2
          exact hne0 hcon2
      have hblock := skipMapBlock_skip (skipNextValue skipFuel) (consumeTok ctx)
        (consumeN (tokensOf m k).length (consumeTok ctx))
        (consumeTok (consumeN (tokensOf m k).length (consumeTok ctx)))
        (consumeN (tokensOf m v).length
          (consumeTok (consumeN (tokensOf m k).length (consumeTok ctx))))
        hkskip (nextT_of_tokens h2) hne hvskip
      have h4 : (consumeN (tokensOf m v).length
          (consumeTok (consumeN (tokensOf m k).length (consumeTok ctx)))).tokens
          = (⟨m, TokenType.flowMappingEnd⟩ : Token) :: rest := by
        rw [consumeN_tokens, h3n, List.drop_left]
      rw [mappingLoopFlowSt, nextT_of_tokens htoks]
      simp only []
      rw [hblock]
      simp only []
      rw [nextT_of_tokens h4]
      simp only [consumeTok_eq_one, ← consumeN_add]
      congr 3
      · congr 1
        simp only [tokensOfF, sepF, List.length_cons, List.length_append,
          List.length_nil]
        omega
    | cons k2 v2 rf2 =>
      -- separator present: a FlowEntry stands between this pair and the next
      have h3c : (consumeTok (consumeN (tokensOf m k).length
          (consumeTok ctx))).tokens
          = tokensOf m v ++ (⟨m, TokenType.flowEntry⟩ ::
              (tokensOfF m (FPairs.cons k2 v2 rf2) ++ rest)) := by
        rw [h3]; rw [sepF]; simp
      by_cases hel : v = VT.elided
      · subst hel
        have h3e : (consumeTok (consumeN (tokensOf m k).length
            (consumeTok ctx))).tokens
            = (⟨m, TokenType.flowEntry⟩ : Token) ::
                (tokensOfF m (FPairs.cons k2 v2 rf2) ++ rest) := by
          rw [h3c]; rw [tokensOf]; simp
        have hblock := skipMapBlock_elide (skipNextValue skipFuel)
          (consumeTok ctx)
          (consumeN (tokensOf m k).length (consumeTok ctx))
          (consumeTok (consumeN (tokensOf m k).length (consumeTok ctx)))
          hkskip (nextT_of_tokens h2) (peekT_of_tokens h3e)
        have h5 : (consumeTok (consumeTok (consumeN (tokensOf m k).length
            (consumeTok ctx)))).tokens
            = tokensOfF m (FPairs.cons k2 v2 rf2) ++ rest :=
          consumeTok_tokens h3e
        have hrec := skipOkF m (FPairs.cons k2 v2 rf2) hrf lf skipFuel
          (by omega) (by omega) _ rest h5
        rw [mappingLoopFlowSt, nextT_of_tokens htoks]
        simp only []
        rw [hblock]
        simp only []
        rw [nextT_of_tokens h3e]
        simp only []
        rw [hrec]
        simp only [consumeTok_eq_one, ← consumeN_add]
        congr 3
        · congr 1
          simp only [tokensOf, tokensOfF, sepF, List.length_cons,
            List.length_append, List.length_nil]
          omega
      · obtain ⟨tk0, tl0, hh0, hne0⟩ := tokensOf_head_not_sep m v hel
        have hfolv : followOkFor v (⟨m, TokenType.flowEntry⟩ ::
            (tokensOfF m (FPairs.cons k2 v2 rf2) ++ rest)) := by
          refine followOkFor_not_elided v hel _ rfl ?_
          simp
        have hvskip := skipOkV m v hv skipFuel (by
            simp only [sepF, tokensOfF, List.length_cons, List.length_append,
              List.length_nil] at hsf
            omega)
          (consumeTok (consumeN (tokensOf m k).length (consumeTok ctx))) _
          h3c hfolv
        have hne : peekT (consumeTok (consumeN (tokensOf m k).length
            (consumeTok ctx))) ≠ .ok TokenType.flowEntry := by
          have : (consumeTok (consumeN (tokensOf m k).length
              (consumeTok ctx))).tokens
              = tk0 :: (tl0 ++ (⟨m, TokenType.flowEntry⟩ ::
                  (tokensOfF m (FPairs.cons k2 v2 rf2) ++ rest))) := by
            rw [h3c, hh0]; simp
          rw [peekT_of_tokens this]
          intro hcon
          injection hcon with hcon2
          exact hne0 hcon2
        have hblock := skipMapBlock_skip (skipNextValue skipFuel)
          (consumeTok ctx)
          (consumeN (tokensOf m k).length (consumeTok ctx))
          (consumeTok (consumeN (tokensOf m k).length (consumeTok ctx)))
          (consumeN (tokensOf m v).length
            (consumeTok (consumeN (tokensOf m k).length (consumeTok ctx))))
          hkskip (nextT_of_tokens h2) hne hvskip
        have h4 : (consumeN (tokensOf m v).length
            (consumeTok (consumeN (tokensOf m k).length (consumeTok ctx)))).tokens
            = (⟨m, TokenType.flowEntry⟩ : Token) ::
                (tokensOfF m (FPairs.cons k2 v2 rf2) ++ rest) := by
          rw [consumeN_tokens, h3c, List.drop_left]
        have h5 : (consumeTok (consumeN (tokensOf m v).length
            (consumeTok (consumeN (tokensOf m k).length
              (consumeTok ctx))))).tokens
            = tokensOfF m (FPairs.cons k2 v2 rf2) ++ rest :=
          consumeTok_tokens h4
        have hrec := skipOkF m (FPairs.cons k2 v2 rf2) hrf lf skipFuel
          (by omega) (by omega) _ rest h5
        rw [mappingLoopFlowSt, nextT_of_tokens htoks]
        simp only []
        rw [hblock]
        simp only []
        rw [nextT_of_tokens h4]
        simp only []
        rw [hrec]
        simp only [consumeTok_eq_one, ← consumeN_add]
        congr 3
        · congr 1
          simp only [tokensOfF, sepF, List.length_cons, List.length_append,
            List.length_nil]
          omega
termination_by 2 * sizeOf body

/-- skip_entries consumes every block entry prefixed item of a well formed
item list, stopping at the first lookahead that is not a block entry. -/
theorem skipOkE (m : Marker) (items : BItems) (hok : okI items = true)
    (loopFuel skipFuel : Nat)
    (hlf : (tokensOfI m items).length + 1 ≤ loopFuel)
    (hsf : (tokensOfI m items).length ≤ skipFuel)
    (ctx : Context) (rest : List Token) (tk : Token) (tl : List Token)
    (htoks : ctx.tokens = tokensOfI m items ++ rest)
    (hr : rest = tk :: tl) (hkind : tk.tok ≠ TokenType.blockEntry) :
    skipEntries (skipNextValue skipFuel) loopFuel ctx
      = .ok (consumeN (tokensOfI m items).length ctx) := by
  cases items with
  | nil =>
    obtain ⟨lf, rfl⟩ : ∃ lf, loopFuel = lf + 1 := ⟨loopFuel - 1, by omega⟩
    subst hr
    simp only [tokensOfI, List.nil_append] at htoks
    rw [skipEntries, peekT_of_tokens htoks]
    cases htk : tk.tok <;> try rfl
    exact absurd htk hkind
  | cons i irest =>
    obtain ⟨lf, rfl⟩ : ∃ lf, loopFuel = lf + 1 := ⟨loopFuel - 1, by omega⟩
    rw [okI] at hok
    simp only [Bool.and_eq_true] at hok
    obtain ⟨⟨hsolid, hi⟩, hirest⟩ := hok
    simp only [tokensOfI, List.cons_append, List.append_assoc] at htoks
    simp only [tokensOfI, List.length_cons, List.length_append] at hlf hsf
    have h1 : (consumeTok ctx).tokens
        = tokensOf m i ++ (tokensOfI m irest ++ rest) :=
      consumeTok_tokens htoks
    have hfoli : followOkFor i (tokensOfI m irest ++ rest) := by
      refine topSolid_followOkFor hsolid _
    have hiskip := skipOkV m i hi skipFuel (by omega) (consumeTok ctx) _
      h1 hfoli
    have h2 : (consumeN (tokensOf m i).length (consumeTok ctx)).tokens
        = tokensOfI m irest ++ rest := by
      rw [consumeN_tokens, h1, List.drop_left]
    have hrec := skipOkE m irest hirest lf skipFuel (by omega) (by omega)
      _ rest tk tl h2 hr hkind
    rw [skipEntries, peekT_of_tokens htoks]
    simp only []
    rw [nextT_of_tokens htoks]
    simp only []
    rw [hiskip]
    simp only []
    rw [hrec]
    simp only [consumeTok_eq_one, ← consumeN_add]
    congr 1
    congr 1
    simp only [tokensOfI, List.length_cons, List.length_append]
    omega
termination_by 2 * sizeOf items

end

/-- skip_next_value consumes the opening bracket of a flow sequence and then
requires the closing bracket at once: any non empty flow sequence panics. -/
theorem skipNextValue_flowseq_panic (fuel : Nat) (hf : 1 ≤ fuel)
    (ctx : Context) (t1 t2 : Token) (rest : List Token)
    (htoks : ctx.tokens = t1 :: t2 :: rest)
    (h1 : t1.tok = TokenType.flowSequenceStart)
    (h2 : t2.tok ≠ TokenType.flowSequenceEnd) :
    skipNextValue fuel ctx = .error .panicked := by
  obtain ⟨f, rfl⟩ : ∃ f, fuel = f + 1 := ⟨fuel - 1, by omega⟩
  have h2t : (consumeTok ctx).tokens = t2 :: rest := consumeTok_tokens htoks
  rw [skipNextValue, peekT_of_tokens htoks, h1]
  simp only []
  rw [nextT_of_tokens htoks]
  simp only []
  rw [nextT_of_tokens h2t]
  cases htk : t2.tok <;> try rfl
  exact absurd htk h2

/-- C7: amended statement. skip_next_value consumes exactly the tokens of
every well formed value at the cursor, of arbitrary nesting depth, built
from scalars, elided values, block and flow mappings and block sequences,
and of the empty flow sequence, returning Ok; but it panics on every non
empty flow sequence. -/
theorem c7_amended_skip_value :
    (∀ (m : Marker) (t : VT), okTree t = true →
      ∀ (fuel : Nat), (tokensOf m t).length + 1 ≤ fuel →
      ∀ (ctx : Context) (rest : List Token),
        ctx.tokens = tokensOf m t ++ rest →
        followOkFor t rest →
        skipNextValue fuel ctx = .ok (consumeN (tokensOf m t).length ctx)) ∧
    (∀ (fuel : Nat) (ctx : Context) (t1 t2 : Token) (rest : List Token),
        1 ≤ fuel →
        ctx.tokens = t1 :: t2 :: rest →
        t1.tok = TokenType.flowSequenceStart →
        t2.tok ≠ TokenType.flowSequenceEnd →
        skipNextValue fuel ctx = .error .panicked) := by
  constructor
  · intro m t hok fuel hfl ctx rest htoks hfol
    exact skipOkV m t hok fuel hfl ctx rest htoks hfol
  · intro fuel ctx t1 t2 rest hf htoks h1 h2
    exact skipNextValue_flowseq_panic fuel hf ctx t1 t2 rest htoks h1 h2

/-- Witness for C7: a concrete one pair block mapping is fully consumed. -/
theorem c7_amended_witness :
    skipNextValue 10 (Context.new []
        (tokensOf ⟨0, 0⟩ (VT.blockMap (BPairs.cons (VT.scalar .plain "a")
          (VT.scalar .plain "b") BPairs.nil)) ++ [⟨⟨0, 0⟩, .blockEnd⟩]))
      = .ok (consumeN (tokensOf ⟨0, 0⟩ (VT.blockMap (BPairs.cons
          (VT.scalar .plain "a") (VT.scalar .plain "b") BPairs.nil))).length
          (Context.new [] (tokensOf ⟨0, 0⟩ (VT.blockMap (BPairs.cons
            (VT.scalar .plain "a") (VT.scalar .plain "b") BPairs.nil))
            ++ [⟨⟨0, 0⟩, .blockEnd⟩]))) :=
  c7_amended_skip_value.1 ⟨0, 0⟩
    (VT.blockMap (BPairs.cons (VT.scalar .plain "a") (VT.scalar .plain "b")
      BPairs.nil)) rfl 10 (by decide) _ [⟨⟨0, 0⟩, .blockEnd⟩] rfl trivial

end GitVrc
